import Mathlib

/-! Verification of the dotfiles agent-hook rule engine.

The development embeds, from the Rust sources, the command classifiers
(`is_rm_command`, `check_destructive_find`), the comment/string scanner
(`is_in_comment_or_string`), the attribute detector
(`check_rust_allow_attributes`), the file-extension gate (`is_rust_file`),
and the decision policies of the two command-line front ends
(`agent_hooks/claude/src/main.rs` and `claude_hooks/src/main.rs`).

Strings are modelled as `List Char`; the fixed regular expressions of the
source are hand-compiled into executable matchers built from a small set of
combinators (namespace `Rx`) that model the regex crate constructs used by
the patterns (`\s`, `.`, literals, `(?i)`, alternation, search). -/

namespace Rx

/-- Lowercase an ASCII letter; other characters are unchanged
(models `eq_ignore_ascii_case` style comparison). -/
def asciiLower (c : Char) : Char :=
  if 'A' ≤ c ∧ c ≤ 'Z' then Char.ofNat (c.toNat + 32) else c

/-- Case folding performed by the regex crate under `(?i)` for ASCII pattern
letters: ASCII case plus the two Unicode simple folds that land on ASCII
(U+212A KELVIN SIGN folds to k, U+017F LATIN SMALL LETTER LONG S folds to s). -/
def ciLower (c : Char) : Char :=
  if c = 'K' then 'k' else if c = 'ſ' then 's' else asciiLower c

/-- Character class `\s` of the regex crate (Unicode White_Space). -/
def isSpace (c : Char) : Bool :=
  c == ' ' || c == '\t' || c == '\n' || c == '\x0b' || c == '\x0c' || c == '\r' ||
  c == '\u0085' || c == ' ' || c == ' ' ||
  (decide (0x2000 ≤ c.toNat) && decide (c.toNat ≤ 0x200A)) ||
  c == ' ' || c == ' ' || c == ' ' || c == ' ' || c == '　'

/-- Character class `[;&|()]` used as command-separator anchor in the
rm and find patterns. -/
def sepChar (c : Char) : Bool :=
  c == ';' || c == '&' || c == '|' || c == '(' || c == ')'

/-- Character class `\w` (ASCII part), used to model the word boundary `\b`
of the Windows move pattern; the patterns and the inputs of interest are
ASCII, so the Unicode word characters are not modelled. -/
def isWordChar (c : Char) : Bool :=
  c == '_' || (decide ('a' ≤ c) && decide (c ≤ 'z')) ||
  (decide ('A' ≤ c) && decide (c ≤ 'Z')) || (decide ('0' ≤ c) && decide (c ≤ '9'))

/-- Match a literal word (case sensitive), then continue with `k`. -/
def lit : List Char → (List Char → Bool) → List Char → Bool
  | [], k, l => k l
  | _ :: _, _, [] => false
  | w :: ws, k, c :: l => c == w && lit ws k l

/-- Match a literal word case-insensitively (the word is given in lowercase),
then continue with `k`. Models a literal under `(?i)`. -/
def litCI : List Char → (List Char → Bool) → List Char → Bool
  | [], k, l => k l
  | _ :: _, _, [] => false
  | w :: ws, k, c :: l => ciLower c == w && litCI ws k l

/-- Match `\s*` then continue with `k` (all split points are tried). -/
def spaces0 (k : List Char → Bool) : List Char → Bool
  | [] => k []
  | c :: l => k (c :: l) || (isSpace c && spaces0 k l)

/-- Match `\s+` then continue with `k`. -/
def spaces1 (k : List Char → Bool) : List Char → Bool
  | [] => false
  | c :: l => isSpace c && spaces0 k l

/-- Match a single `\s` then continue with `k`. -/
def oneSpace (k : List Char → Bool) : List Char → Bool
  | [] => false
  | c :: l => isSpace c && k l

/-- Match `.*` (any characters except newline) then continue with `k`
(all split points are tried). -/
def dotStar (k : List Char → Bool) : List Char → Bool
  | [] => k []
  | c :: l => k (c :: l) || (!(c == '\n') && dotStar k l)

/-- Match `(\s|$)`: end of input or one whitespace character. -/
def endOrSpace : List Char → Bool
  | [] => true
  | c :: _ => isSpace c

/-- The always-true continuation (end of a pattern). -/
def trueK : List Char → Bool := fun _ => true

/-- Unanchored search: `is_match` succeeds if the pattern matches at some
position of the input. -/
def searchB (p : List Char → Bool) : List Char → Bool
  | [] => p []
  | c :: l => p (c :: l) || searchB p l

end Rx

namespace AgentHooks

open Rx

/-! Embedding of `agent_hooks/core/src/lib.rs`. -/

/-! rm command detection (`RM_PATTERN`, `is_rm_command`). -/

def rmWord : List Char := ['r', 'm']

def sudoWord : List Char := ['s', 'u', 'd', 'o']

def commandWord : List Char := ['c', 'o', 'm', 'm', 'a', 'n', 'd']

/-- Matches `rm(\s|$)` at the head of the input. -/
def rmTail (l : List Char) : Bool := lit rmWord endOrSpace l

/-- Matches `\S*/` followed by `rm(\s|$)`: scans non-space characters and at
each `/` tries to finish with `rm(\s|$)`. -/
def slashRmTail : List Char → Bool
  | [] => false
  | c :: l => !isSpace c && ((c == '/' && rmTail l) || slashRmTail l)

/-- Matches `(\S*/)?rm(\s|$)`. -/
def pathRm (l : List Char) : Bool := rmTail l || slashRmTail l

/-- Matches `(\\)?(\S*/)?rm(\s|$)`. -/
def bsRm : List Char → Bool
  | [] => pathRm []
  | c :: l => pathRm (c :: l) || (c == '\\' && pathRm l)

/-- Matches `(command\s+)?(\\)?(\S*/)?rm(\s|$)`. -/
def cmdRm (l : List Char) : Bool := bsRm l || lit commandWord (spaces1 bsRm) l

/-- Matches `(sudo\s+)?(command\s+)?(\\)?(\S*/)?rm(\s|$)`. -/
def sudoRm (l : List Char) : Bool := cmdRm l || lit sudoWord (spaces1 cmdRm) l

/-- Search for the separator-anchored alternative of `RM_PATTERN`:
`[;&|()]\s*` followed by the pattern body, at any position. -/
def rmSepSearch : List Char → Bool
  | [] => false
  | c :: l => (sepChar c && spaces0 sudoRm l) || rmSepSearch l

/-- Embedding of `is_rm_command` (Unix `RM_PATTERN`):
`(^|[;&|()]\s*)(sudo\s+)?(command\s+)?(\\)?(\S*/)?rm(\s|$)`,
searched anywhere in the command string. -/
def is_rm_command (cmd : String) : Bool :=
  sudoRm cmd.data || rmSepSearch cmd.data

/-- Claim-side notion: the input contains `rm` as a delimited token
(followed by whitespace or end of string) at some position. -/
def hasDelimRm : List Char → Bool
  | [] => false
  | c :: l => rmTail (c :: l) || hasDelimRm l

/-! Windows variant of `RM_PATTERN` (case-insensitive, extra verbs,
path prefix may end in backslash or slash). -/

def delWord : List Char := ['d', 'e', 'l']

def rdWord : List Char := ['r', 'd']

def rmdirWord : List Char := ['r', 'm', 'd', 'i', 'r']

def removeItemWord : List Char := ['r', 'e', 'm', 'o', 'v', 'e', '-', 'i', 't', 'e', 'm']

/-- Matches `(rm|del|rd|rmdir|remove-item)(\s|$)` case-insensitively. -/
def verbTailW (l : List Char) : Bool :=
  litCI rmWord endOrSpace l || litCI delWord endOrSpace l ||
  litCI rdWord endOrSpace l || litCI rmdirWord endOrSpace l ||
  litCI removeItemWord endOrSpace l

/-- Matches `\S*[\\/]` followed by the delimited verb. -/
def slashVerbTailW : List Char → Bool
  | [] => false
  | c :: l => !isSpace c && (((c == '\\' || c == '/') && verbTailW l) || slashVerbTailW l)

/-- Matches `(\S*[\\/])?(rm|del|rd|rmdir|remove-item)(\s|$)`. -/
def pathVerbW (l : List Char) : Bool := verbTailW l || slashVerbTailW l

/-- Matches `(\\)?(\S*[\\/])?…` of the Windows pattern. -/
def bsVerbW : List Char → Bool
  | [] => pathVerbW []
  | c :: l => pathVerbW (c :: l) || (c == '\\' && pathVerbW l)

/-- Matches `(command\s+)?…` of the Windows pattern (case-insensitive). -/
def cmdVerbW (l : List Char) : Bool := bsVerbW l || litCI commandWord (spaces1 bsVerbW) l

/-- Matches `(sudo\s+)?(command\s+)?…` of the Windows pattern. -/
def sudoVerbW (l : List Char) : Bool := cmdVerbW l || litCI sudoWord (spaces1 cmdVerbW) l

/-- Search for the separator-anchored alternative of the Windows pattern. -/
def verbSepSearchW : List Char → Bool
  | [] => false
  | c :: l => (sepChar c && spaces0 sudoVerbW l) || verbSepSearchW l

/-- Embedding of `is_rm_command` (Windows `RM_PATTERN`):
`(?i)(^|[;&|()]\s*)(sudo\s+)?(command\s+)?(\\)?(\S*[\\/])?(rm|del|rd|rmdir|remove-item)(\s|$)`. -/
def is_rm_command_windows (cmd : String) : Bool :=
  sudoVerbW cmd.data || verbSepSearchW cmd.data

/-- Claim-side notion: the input contains one of the deletion verbs as a
delimited token (case-insensitively, followed by whitespace or end). -/
def hasDelimVerbW : List Char → Bool
  | [] => false
  | c :: l => verbTailW (c :: l) || hasDelimVerbW l

/-! Destructive find detection (`FIND_CHECK`, `DESTRUCTIVE_PATTERNS`,
`check_destructive_find`). -/

def findWord : List Char := ['f', 'i', 'n', 'd']

/-- Matches the body `find\s` of `FIND_CHECK` (case sensitive). -/
def findGateBody (l : List Char) : Bool := lit findWord (oneSpace trueK) l

/-- Search for the separator-anchored alternative of `FIND_CHECK`. -/
def findGateSearch : List Char → Bool
  | [] => false
  | c :: l => (sepChar c && spaces0 findGateBody l) || findGateSearch l

/-- Embedding of `FIND_CHECK.is_match`: `(^|[;&|()]\s*)find\s`. -/
def findGateB (l : List Char) : Bool := findGateBody l || findGateSearch l

def deleteFlagWord : List Char := ['-', 'd', 'e', 'l', 'e', 't', 'e']

def execFlagWord : List Char := ['-', 'e', 'x', 'e', 'c']

def execdirFlagWord : List Char := ['-', 'e', 'x', 'e', 'c', 'd', 'i', 'r']

def okFlagWord : List Char := ['-', 'o', 'k']

def xargsWord : List Char := ['x', 'a', 'r', 'g', 's']

def mvWord : List Char := ['m', 'v']

/-- Matches `(rm|rmdir)\s` case-insensitively. -/
def rmOrRmdirSp (l : List Char) : Bool :=
  litCI rmWord (oneSpace trueK) l || litCI rmdirWord (oneSpace trueK) l

/-- Matches `(sudo\s+)?(rm|rmdir)\s`. -/
def sudoRmOrRmdirSp (l : List Char) : Bool :=
  rmOrRmdirSp l || litCI sudoWord (spaces1 rmOrRmdirSp) l

/-- Matches `(rm|rmdir)` (no trailing whitespace, xargs pattern). -/
def rmOrRmdirBare (l : List Char) : Bool :=
  litCI rmWord trueK l || litCI rmdirWord trueK l

/-- Matches `(sudo\s+)?(rm|rmdir)`. -/
def sudoRmOrRmdirBare (l : List Char) : Bool :=
  rmOrRmdirBare l || litCI sudoWord (spaces1 rmOrRmdirBare) l

/-- Matches `xargs\s+(sudo\s+)?(rm|rmdir)`. -/
def xargsPart (l : List Char) : Bool := litCI xargsWord (spaces1 sudoRmOrRmdirBare) l

/-- Matches `(sudo\s+)?xargs\s+(sudo\s+)?(rm|rmdir)`. -/
def sudoXargsPart (l : List Char) : Bool := xargsPart l || litCI sudoWord (spaces1 xargsPart) l

/-- Match a literal `\|` then continue with `k`. -/
def pipeThen (k : List Char → Bool) : List Char → Bool
  | '|' :: l => k l
  | _ => false

/-- Matches `mv\s`. -/
def mvSp (l : List Char) : Bool := litCI mvWord (oneSpace trueK) l

/-- Matches `(sudo\s+)?mv\s`. -/
def sudoMvSp (l : List Char) : Bool := mvSp l || litCI sudoWord (spaces1 mvSp) l

/-- Pattern 1: `find\s+.*-delete` (under `(?i)`). -/
def pDeleteAt (l : List Char) : Bool :=
  litCI findWord (spaces1 (dotStar (litCI deleteFlagWord trueK))) l

/-- Pattern 2: `find\s+.*-exec\s+(sudo\s+)?(rm|rmdir)\s`. -/
def pExecAt (l : List Char) : Bool :=
  litCI findWord (spaces1 (dotStar (litCI execFlagWord (spaces1 sudoRmOrRmdirSp)))) l

/-- Pattern 3: `find\s+.*-execdir\s+(sudo\s+)?(rm|rmdir)\s`. -/
def pExecdirAt (l : List Char) : Bool :=
  litCI findWord (spaces1 (dotStar (litCI execdirFlagWord (spaces1 sudoRmOrRmdirSp)))) l

/-- Pattern 4: `find\s+.*\|\s*(sudo\s+)?xargs\s+(sudo\s+)?(rm|rmdir)`. -/
def pXargsAt (l : List Char) : Bool :=
  litCI findWord (spaces1 (dotStar (pipeThen (spaces0 sudoXargsPart)))) l

/-- Pattern 5: `find\s+.*-exec\s+(sudo\s+)?mv\s`. -/
def pExecMvAt (l : List Char) : Bool :=
  litCI findWord (spaces1 (dotStar (litCI execFlagWord (spaces1 sudoMvSp)))) l

/-- Pattern 6: `find\s+.*-ok\s+(sudo\s+)?(rm|rmdir)\s`. -/
def pOkAt (l : List Char) : Bool :=
  litCI findWord (spaces1 (dotStar (litCI okFlagWord (spaces1 sudoRmOrRmdirSp)))) l

/-- Embedding of the Unix `DESTRUCTIVE_PATTERNS` table, in source order,
with the exact description strings. -/
def DESTRUCTIVE_PATTERNS : List ((List Char → Bool) × String) :=
  [(searchB pDeleteAt, "find with -delete option"),
   (searchB pExecAt, "find with -exec rm/rmdir"),
   (searchB pExecdirAt, "find with -execdir rm/rmdir"),
   (searchB pXargsAt, "find piped to xargs rm/rmdir"),
   (searchB pExecMvAt, "find with -exec mv"),
   (searchB pOkAt, "find with -ok rm/rmdir")]

/-- The for-loop of `check_destructive_find`: first matching pattern wins. -/
def firstMatch : List ((List Char → Bool) × String) → List Char → Option String
  | [], _ => none
  | (p, d) :: ps, l => if p l then some d else firstMatch ps l

/-- Embedding of `check_destructive_find` (Unix). -/
def check_destructive_find (cmd : String) : Option String :=
  if !findGateB cmd.data then none
  else firstMatch DESTRUCTIVE_PATTERNS cmd.data

/-- Embedding of the Windows `FIND_CHECK` gate: the pattern `\|` simply
requires a pipe character somewhere in the command. -/
def hasPipeB : List Char → Bool
  | [] => false
  | c :: l => c == '|' || hasPipeB l

def moveWord : List Char := ['m', 'o', 'v', 'e']

def moveItemWord : List Char := ['m', 'o', 'v', 'e', '-', 'i', 't', 'e', 'm']

/-- Word boundary `\b` after a word character: next character is absent or
not a word character. -/
def nonWordNext : List Char → Bool
  | [] => true
  | c :: _ => !isWordChar c

/-- Matches `(move|move-item)\b` case-insensitively. -/
def moveAt (l : List Char) : Bool :=
  litCI moveWord nonWordNext l || litCI moveItemWord nonWordNext l

/-- Matches `\|\s*(move|move-item)\b`. -/
def pipeMoveAt : List Char → Bool
  | '|' :: l => spaces0 moveAt l
  | _ => false

/-- Embedding of the Windows `DESTRUCTIVE_PATTERNS` table. -/
def DESTRUCTIVE_PATTERNS_windows : List ((List Char → Bool) × String) :=
  [(searchB pipeMoveAt, "piped to move/move-item")]

/-- Embedding of `check_destructive_find` (Windows). -/
def check_destructive_find_windows (cmd : String) : Option String :=
  if !hasPipeB cmd.data then none
  else firstMatch DESTRUCTIVE_PATTERNS_windows cmd.data

/-! Comment and string scanner (`is_in_comment_or_string`). -/

/-- Accumulating helper for `lineTail`. -/
def lineTailAux (acc : List Char) : List Char → List Char
  | [] => acc.reverse
  | c :: l => if c == '\n' then lineTailAux [] l else lineTailAux (c :: acc) l

/-- The suffix of the input after its last newline (the whole input when it
has no newline); models `before.rfind` of a newline plus the slice from the
following position. -/
def lineTail (l : List Char) : List Char := lineTailAux [] l

/-- Substring test for a two-character pattern; models `str::contains`. -/
def containsTwo (a b : Char) : List Char → Bool
  | x :: y :: l => (x == a && y == b) || containsTwo a b (y :: l)
  | _ => false

/-- Count of non-overlapping left-to-right occurrences of a two-character
pattern; models `str::matches(..).count()`. -/
def countTwo (a b : Char) : List Char → Nat
  | x :: y :: l => if x == a && y == b then countTwo a b l + 1 else countTwo a b (y :: l)
  | _ => 0

/-- Drop the run of `#` characters after the `r` of a candidate raw-string
opener (the inner `while` over `b'#'`). -/
def stripHashes : List Char → List Char
  | '#' :: l => stripHashes l
  | l => l

/-- Scan for the closing quote of an ordinary string literal: a quote whose
preceding byte is not a backslash (the inner `while` over `k`). Returns the
rest of the input after the closing quote, or `none` when the string is
unterminated. -/
def skipStr : Char → List Char → Option (List Char)
  | _, [] => none
  | prev, c :: l => if c == '"' && prev != '\\' then some l else skipStr c l

/-- One pass of the string/raw-string walk of `is_in_comment_or_string`.
The walk is fuel-indexed so that it stays executable by the kernel; each
step consumes at least one character, so fuel equal to the input length
never runs out (the fuel-exhaustion arm is unreachable from `strWalkB`).
`inRaw` is the `in_raw_string` flag, `prev` the previously scanned byte
(`bytes[i - 1]`). -/
def strWalkF : Nat → Bool → Char → List Char → Bool
  | _, inRaw, _, [] => inRaw
  | 0, inRaw, _, _ :: _ => inRaw
  | fuel + 1, true, _, c :: l =>
    if c == '"' then strWalkF fuel false c l else strWalkF fuel true c l
  | fuel + 1, false, prev, c :: l =>
    if c == 'r' then
      match stripHashes l with
      | '"' :: l2 => strWalkF fuel true '"' l2
      | _ => strWalkF fuel false c l
    else if c == '"' && prev != '\\' then
      match skipStr '"' l with
      | none => true
      | some l2 => strWalkF fuel false '"' l2
    else strWalkF fuel false c l

/-- The string-literal walk over the prefix before the match: returns `true`
if the position at the end of the prefix is inside an unterminated ordinary
string or inside a raw string. The initial `prev` is an arbitrary
non-backslash character, matching the `i == 0` disjunct of the source. -/
def strWalkB (l : List Char) : Bool := strWalkF l.length false '\x00' l

/-- Embedding of `is_in_comment_or_string` on character lists: line-comment
check on the current line, block-comment open/close tally, then the
string-literal walk, over the prefix `content[..match_start]`. This models
the in-bounds behaviour only: `content.take matchStart` clamps an
out-of-range offset, whereas the Rust slice `&content[..match_start]`
panics there — `is_in_comment_or_string_checked` restores that panic path.
All callers in the source pass match offsets of the content, which are in
bounds. -/
def inCommentOrStringL (content : List Char) (matchStart : Nat) : Bool :=
  let before := content.take matchStart
  if containsTwo '/' '/' (lineTail before) then true
  else if countTwo '*' '/' before < countTwo '/' '*' before then true
  else strWalkB before

/-- Embedding of `is_in_comment_or_string` (agent_hooks core), in-bounds
behaviour. -/
def is_in_comment_or_string (content : String) (matchStart : Nat) : Bool :=
  inCommentOrStringL content.data matchStart

/-- Embedding of `is_in_comment_or_string` together with its partiality:
the Rust function first takes the byte slice `&content[..match_start]`,
which panics when `match_start` exceeds the buffer length, so for such
offsets the function yields no boolean at all (`none` here); for in-bounds
offsets it returns the scanner verdict. (In this character-list model every
in-bounds index is a valid boundary; the byte-level mid-character panic has
no counterpart.) -/
def is_in_comment_or_string_checked (content : String) (matchStart : Nat) : Option Bool :=
  if matchStart ≤ content.length then some (inCommentOrStringL content.data matchStart)
  else none

/-! Attribute detection (`RUST_ALLOW_PATTERN`, `RUST_EXPECT_PATTERN`,
`find_real_matches`, `check_rust_allow_attributes`). -/

def allowWord : List Char := ['a', 'l', 'l', 'o', 'w']

def expectWord : List Char := ['e', 'x', 'p', 'e', 'c', 't']

/-- Match a literal word and return the rest of the input. -/
def dropLit : List Char → List Char → Option (List Char)
  | [], l => some l
  | _ :: _, [] => none
  | w :: ws, c :: l => if c == w then dropLit ws l else none

/-- Drop the leading `\s*` run. -/
def spacesDrop : List Char → List Char
  | [] => []
  | c :: l => if isSpace c then spacesDrop l else c :: l

/-- Matches `\[word\s*\(` (the part of the attribute pattern after `#!?`). -/
def attrAfterHash (word : List Char) : List Char → Bool
  | '[' :: l =>
    (match dropLit word l with
     | some l2 => (match spacesDrop l2 with | '(' :: _ => true | _ => false)
     | none => false)
  | _ => false

/-- Matches `#!?\[word\s*\(` at the head of the input: the attribute
patterns `RUST_ALLOW_PATTERN` / `RUST_EXPECT_PATTERN` with `word` being
`allow` or `expect`. -/
def matchAttrAt (word : List Char) : List Char → Bool
  | '#' :: '!' :: l => attrAfterHash word l
  | '#' :: l => attrAfterHash word l
  | _ => false

/-- Loop of `find_real_matches`: scan every match position of the attribute
pattern (the pattern starts with the only `#` of its matched text, so
matches cannot overlap and `find_iter` visits every matching position) and
accept the first one not inside a comment or string. `content` is the whole
buffer, `l` its suffix starting at position `i`. -/
def findRealAux (word content : List Char) : List Char → Nat → Bool
  | [], _ => false
  | c :: l, i =>
    (matchAttrAt word (c :: l) && !inCommentOrStringL content i) ||
    findRealAux word content l (i + 1)

/-- Embedding of `find_real_matches` for the pattern built from `word`. -/
def findRealB (word content : List Char) : Bool := findRealAux word content content 0

/-- Result of checking for Rust allow/expect attributes. -/
inductive RustAllowCheckResult
  | Ok
  | HasAllow
  | HasExpect
  | HasBoth
deriving DecidableEq

/-- Embedding of `check_rust_allow_attributes`. -/
def check_rust_allow_attributes (content : String) : RustAllowCheckResult :=
  match findRealB allowWord content.data, findRealB expectWord content.data with
  | true, true => RustAllowCheckResult.HasBoth
  | true, false => RustAllowCheckResult.HasAllow
  | false, true => RustAllowCheckResult.HasExpect
  | false, false => RustAllowCheckResult.Ok

/-! File extension gate (`is_rust_file`), modelling
`std::path::Path::file_name` / `extension` for Unix paths. -/

/-- Split a path on `/`. -/
def splitSlashAux (cur : List Char) : List Char → List (List Char)
  | [] => [cur.reverse]
  | c :: l => if c == '/' then cur.reverse :: splitSlashAux [] l else splitSlashAux (c :: cur) l

/-- The final component of a path: last segment after dropping empty and `.`
segments; `none` for the root, the empty path, and paths ending in `..`
(models `Path::file_name`). -/
def fileNameOf (p : List Char) : Option (List Char) :=
  match ((splitSlashAux [] p).filter (fun s => !s.isEmpty && s != ['.'])).getLast? with
  | none => none
  | some s => if s == ['.', '.'] then none else some s

/-- The extension of a file name: the part after the last dot, provided the
part before that dot is nonempty (models `Path::extension`). -/
def extOf (name : List Char) : Option (List Char) :=
  match name.reverse.dropWhile (fun c => !(c == '.')) with
  | [] => none
  | [_] => none
  | _ :: _ :: _ => some ((name.reverse.takeWhile (fun c => !(c == '.'))).reverse)

/-- ASCII-case-insensitive equality of character lists
(models `eq_ignore_ascii_case`). -/
def eqIgnoreAsciiCase : List Char → List Char → Bool
  | [], [] => true
  | x :: xs, y :: ys => asciiLower x == asciiLower y && eqIgnoreAsciiCase xs ys
  | _, _ => false

def rsExt : List Char := ['r', 's']

/-- Embedding of `is_rust_file`. -/
def is_rust_file (p : String) : Bool :=
  match fileNameOf p.data with
  | none => false
  | some n =>
    match extOf n with
    | none => false
    | some e => eqIgnoreAsciiCase e rsExt

end AgentHooks

namespace AgentClaude

open AgentHooks

/-! Embedding of the decision logic of `agent_hooks/claude/src/main.rs`.
The stdin/stdout transport and JSON codec are out of scope; a failed
`read_hook_input` is modelled by the `none` case of the optional input, and
"no output emitted" by a `none` result. -/

/-- Tool names that Claude Code can invoke. -/
inductive ToolName
  | Task
  | Bash
  | Glob
  | Grep
  | Read
  | Edit
  | Write
  | WebFetch
  | WebSearch
  | Unknown (s : String)
deriving DecidableEq

/-- Tool-specific input payload. -/
structure ToolInput where
  command : Option String
  new_string : Option String
  content : Option String
  file_path : Option String
deriving DecidableEq

/-- Input received from Claude Code hooks via stdin. -/
structure HookInput where
  tool_name : Option ToolName
  tool_input : Option ToolInput
deriving DecidableEq

/-- Hook event names for Claude Code output. -/
inductive HookEventName
  | PermissionRequest
  | PreToolUse
deriving DecidableEq

/-- Behavior for permission decisions. -/
inductive DecisionBehavior
  | Deny
  | Allow
deriving DecidableEq

/-- Permission decision types. -/
inductive PermissionDecision
  | Ask
  | Allow
  | Deny
deriving DecidableEq

/-- Decision payload (behavior plus message). -/
structure Decision where
  behavior : DecisionBehavior
  message : String
deriving DecidableEq

/-- Hook-specific output payload. -/
structure HookSpecificOutput where
  hook_event_name : HookEventName
  decision : Option Decision
  permission_decision : Option PermissionDecision
  permission_decision_reason : Option String
deriving DecidableEq

/-- Output printed as JSON to stdout. -/
structure HookOutput where
  hook_specific_output : HookSpecificOutput
deriving DecidableEq

/-- The fixed denial message of the rm check. -/
def rmForbiddenMessage : String :=
  "rm is forbidden. Use trash command to delete files. Example: trash <path...>"

/-- The output emitted when the rm check fires. -/
def rmDenyOutput : HookOutput :=
  ⟨⟨HookEventName.PermissionRequest, some ⟨DecisionBehavior.Deny, rmForbiddenMessage⟩,
    none, none⟩⟩

/-- The reason string of the destructive-find confirmation. -/
def findAskReason (description : String) : String :=
  "Destructive find command detected: " ++ description ++
  ". This operation may delete or modify files. Please confirm."

/-- The output emitted when the destructive-find check fires. -/
def findAskOutput (description : String) : HookOutput :=
  ⟨⟨HookEventName.PermissionRequest, none, some PermissionDecision.Ask,
    some (findAskReason description)⟩⟩

/-- Embedding of `permission_request_action`: flags `--block-rm` and
`--confirm-destructive-find`, optional decoded input. -/
def permission_request_action (blockRm confirmFind : Bool)
    (input : Option HookInput) : Option HookOutput :=
  if !blockRm && !confirmFind then none
  else
    match input with
    | none => none
    | some data =>
      match data.tool_name with
      | some ToolName.Bash =>
        let cmd := (data.tool_input.bind (fun ti => ti.command)).getD ""
        if cmd == "" then none
        else if blockRm && is_rm_command cmd then some rmDenyOutput
        else if confirmFind then
          match check_destructive_find cmd with
          | some description => some (findAskOutput description)
          | none => none
        else none
      | _ => none

/-- The `matches!(tool_name, ToolName::Edit | ToolName::Write)` test. -/
def isEditOrWrite : ToolName → Bool
  | ToolName.Edit => true
  | ToolName.Write => true
  | _ => false

/-- Denial message of the lenient (`--expect`) mode. -/
def allowExpectSuggestMessage : String :=
  "Adding #[allow(...)] or #![allow(...)] attributes is not permitted. Use #[expect(...)] instead, which will warn when the lint is no longer triggered."

/-- Strict-mode denial message when both markers are present. -/
def strictBothMessage : String :=
  "Adding #[allow(...)] or #[expect(...)] attributes is not permitted. Fix the underlying issue instead of suppressing the warning."

/-- Strict-mode denial message for an allow-only finding. -/
def strictAllowMessage : String :=
  "Adding #[allow(...)] or #![allow(...)] attributes is not permitted. Fix the underlying issue instead of suppressing the warning."

/-- Strict-mode denial message for an expect-only finding. -/
def strictExpectMessage : String :=
  "Adding #[expect(...)] or #![expect(...)] attributes is not permitted. Fix the underlying issue instead of suppressing the warning."

/-- Append the optional `--additional-context` text (space separated). -/
def withCtx (base : String) : Option String → String
  | some ctx => base ++ " " ++ ctx
  | none => base

/-- The PreToolUse denial output. -/
def preToolDenyOutput (reason : String) : HookOutput :=
  ⟨⟨HookEventName.PreToolUse, none, some PermissionDecision.Deny, some reason⟩⟩

/-- Embedding of `pre_tool_use_action`: flags `--deny-rust-allow`,
`--expect`, `--additional-context`, optional decoded input. -/
def pre_tool_use_action (denyRustAllowEnabled expectFlag : Bool)
    (additionalContext : Option String) (input : Option HookInput) : Option HookOutput :=
  if !denyRustAllowEnabled then none
  else
    match input with
    | none => none
    | some data =>
      match data.tool_name with
      | none => none
      | some toolName =>
        if !isEditOrWrite toolName then none
        else
          match data.tool_input with
          | none => none
          | some toolInput =>
            if !is_rust_file (toolInput.file_path.getD "") then none
            else
              let content := (toolInput.new_string.or toolInput.content).getD ""
              if content == "" then none
              else
                if expectFlag then
                  match check_rust_allow_attributes content with
                  | RustAllowCheckResult.HasAllow =>
                    some (preToolDenyOutput (withCtx allowExpectSuggestMessage additionalContext))
                  | RustAllowCheckResult.HasBoth =>
                    some (preToolDenyOutput (withCtx allowExpectSuggestMessage additionalContext))
                  | _ => none
                else
                  match check_rust_allow_attributes content with
                  | RustAllowCheckResult.Ok => none
                  | RustAllowCheckResult.HasBoth =>
                    some (preToolDenyOutput (withCtx strictBothMessage additionalContext))
                  | RustAllowCheckResult.HasAllow =>
                    some (preToolDenyOutput (withCtx strictAllowMessage additionalContext))
                  | RustAllowCheckResult.HasExpect =>
                    some (preToolDenyOutput (withCtx strictExpectMessage additionalContext))

end AgentClaude

namespace ClaudeHooks

open Rx

/-! Embedding of `claude_hooks/src/main.rs`, the older stand-alone front
end. Its `RM_PATTERN`, `FIND_CHECK`, `DESTRUCTIVE_PATTERNS` and
`is_in_comment_or_string` duplicate the core library line for line; the
scanner and the rm matcher are embedded here a second time from that source
so that their extensional agreement with the core library can be stated and
proved (claim C10). The destructive-find pattern table and the attribute
regexes are textually identical to the core's, so the shared embeddings
`AgentHooks.DESTRUCTIVE_PATTERNS` and `AgentHooks.matchAttrAt` are reused
for them. -/

def rmWord : List Char := ['r', 'm']

def sudoWord : List Char := ['s', 'u', 'd', 'o']

def commandWord : List Char := ['c', 'o', 'm', 'm', 'a', 'n', 'd']

/-- Matches `rm(\s|$)` at the head of the input. -/
def rmTail (l : List Char) : Bool := lit rmWord endOrSpace l

/-- Matches `\S*/` followed by `rm(\s|$)`. -/
def slashRmTail : List Char → Bool
  | [] => false
  | c :: l => !isSpace c && ((c == '/' && rmTail l) || slashRmTail l)

/-- Matches `(\S*/)?rm(\s|$)`. -/
def pathRm (l : List Char) : Bool := rmTail l || slashRmTail l

/-- Matches `(\\)?(\S*/)?rm(\s|$)`. -/
def bsRm : List Char → Bool
  | [] => pathRm []
  | c :: l => pathRm (c :: l) || (c == '\\' && pathRm l)

/-- Matches `(command\s+)?(\\)?(\S*/)?rm(\s|$)`. -/
def cmdRm (l : List Char) : Bool := bsRm l || lit commandWord (spaces1 bsRm) l

/-- Matches `(sudo\s+)?(command\s+)?(\\)?(\S*/)?rm(\s|$)`. -/
def sudoRm (l : List Char) : Bool := cmdRm l || lit sudoWord (spaces1 cmdRm) l

/-- Search for the separator-anchored alternative of `RM_PATTERN`. -/
def rmSepSearch : List Char → Bool
  | [] => false
  | c :: l => (sepChar c && spaces0 sudoRm l) || rmSepSearch l

/-- Embedding of this front end's `RM_PATTERN.is_match` (Unix). -/
def rmIsMatch (cmd : String) : Bool :=
  sudoRm cmd.data || rmSepSearch cmd.data

/-- Hook event names that can be returned in the output. -/
inductive HookEventName
  | PermissionRequest
  | PreToolUse
deriving DecidableEq

/-- Behavior for permission decisions. -/
inductive DecisionBehavior
  | Deny
  | Allow
deriving DecidableEq

/-- Permission decision types for ask behavior. -/
inductive PermissionDecision
  | Ask
  | Allow
  | Deny
deriving DecidableEq

/-- Decision payload. -/
structure Decision where
  behavior : DecisionBehavior
  message : String
deriving DecidableEq

/-- Hook-specific output payload. -/
structure HookSpecificOutput where
  hook_event_name : HookEventName
  decision : Option Decision
  permission_decision : Option PermissionDecision
  permission_decision_reason : Option String
deriving DecidableEq

/-- Output printed as JSON to stdout. -/
structure HookOutput where
  hook_specific_output : HookSpecificOutput
deriving DecidableEq

/-- Tool-specific input payload. -/
structure ToolInput where
  command : Option String
  new_string : Option String
  content : Option String
  file_path : Option String
deriving DecidableEq

/-- Input received via stdin; the tool name is an open string here. -/
structure HookInput where
  tool_name : Option String
  tool_input : Option ToolInput
deriving DecidableEq

/-- The fixed denial message of the rm check. -/
def rmForbiddenMessage : String :=
  "rm is forbidden. Use trash command to delete files. Example: trash <path...>"

/-- Embedding of `block_rm`. -/
def block_rm (cmd : String) : Option HookOutput :=
  if rmIsMatch cmd then
    some ⟨⟨HookEventName.PermissionRequest,
      some ⟨DecisionBehavior.Deny, rmForbiddenMessage⟩, none, none⟩⟩
  else none

/-- The reason string of the destructive-find confirmation. -/
def findAskReason (description : String) : String :=
  "Destructive find command detected: " ++ description ++
  ". This operation may delete or modify files. Please confirm."

/-- Embedding of `confirm_destructive_find`: the same `FIND_CHECK` gate and
pattern table as the core library (the source duplicates them verbatim),
wrapping the first matching description in an Ask output. -/
def confirm_destructive_find (cmd : String) : Option HookOutput :=
  if !AgentHooks.findGateB cmd.data then none
  else
    match AgentHooks.firstMatch AgentHooks.DESTRUCTIVE_PATTERNS cmd.data with
    | some description =>
      some ⟨⟨HookEventName.PermissionRequest, none, some PermissionDecision.Ask,
        some (findAskReason description)⟩⟩
    | none => none

/-! Duplicated comment/string scanner. -/

/-- Accumulating helper for `lineTail`. -/
def lineTailAux (acc : List Char) : List Char → List Char
  | [] => acc.reverse
  | c :: l => if c == '\n' then lineTailAux [] l else lineTailAux (c :: acc) l

/-- The suffix of the input after its last newline. -/
def lineTail (l : List Char) : List Char := lineTailAux [] l

/-- Substring test for a two-character pattern. -/
def containsTwo (a b : Char) : List Char → Bool
  | x :: y :: l => (x == a && y == b) || containsTwo a b (y :: l)
  | _ => false

/-- Count of non-overlapping occurrences of a two-character pattern. -/
def countTwo (a b : Char) : List Char → Nat
  | x :: y :: l => if x == a && y == b then countTwo a b l + 1 else countTwo a b (y :: l)
  | _ => 0

/-- Drop the run of `#` after the `r` of a candidate raw-string opener. -/
def stripHashes : List Char → List Char
  | '#' :: l => stripHashes l
  | l => l

/-- Scan for the closing quote of an ordinary string literal. -/
def skipStr : Char → List Char → Option (List Char)
  | _, [] => none
  | prev, c :: l => if c == '"' && prev != '\\' then some l else skipStr c l

/-- The fuel-indexed string/raw-string walk (same loop as the core's). -/
def strWalkF : Nat → Bool → Char → List Char → Bool
  | _, inRaw, _, [] => inRaw
  | 0, inRaw, _, _ :: _ => inRaw
  | fuel + 1, true, _, c :: l =>
    if c == '"' then strWalkF fuel false c l else strWalkF fuel true c l
  | fuel + 1, false, prev, c :: l =>
    if c == 'r' then
      match stripHashes l with
      | '"' :: l2 => strWalkF fuel true '"' l2
      | _ => strWalkF fuel false c l
    else if c == '"' && prev != '\\' then
      match skipStr '"' l with
      | none => true
      | some l2 => strWalkF fuel false '"' l2
    else strWalkF fuel false c l

/-- The string-literal walk over the prefix before the match. -/
def strWalkB (l : List Char) : Bool := strWalkF l.length false '\x00' l

/-- Embedding of this front end's `is_in_comment_or_string` on lists
(in-bounds behaviour; like the core's, the duplicated Rust function panics
on an out-of-range offset, where this model's `take` clamps — both sources
only call it at in-bounds match offsets). -/
def inCommentOrStringL (content : List Char) (matchStart : Nat) : Bool :=
  let before := content.take matchStart
  if containsTwo '/' '/' (lineTail before) then true
  else if countTwo '*' '/' before < countTwo '/' '*' before then true
  else strWalkB before

/-- Embedding of this front end's `is_in_comment_or_string`. -/
def is_in_comment_or_string (content : String) (matchStart : Nat) : Bool :=
  inCommentOrStringL content.data matchStart

/-- Loop of this front end's `find_real_matches`, over its own scanner. -/
def findRealAux (word content : List Char) : List Char → Nat → Bool
  | [], _ => false
  | c :: l, i =>
    (AgentHooks.matchAttrAt word (c :: l) && !inCommentOrStringL content i) ||
    findRealAux word content l (i + 1)

/-- Embedding of this front end's `find_real_matches`. -/
def findRealB (word content : List Char) : Bool := findRealAux word content content 0

/-- The inline Rust-file check of `deny_rust_allow` (same
`Path::extension` / `eq_ignore_ascii_case` call chain as the core's
`is_rust_file`). -/
def isRustPath (p : String) : Bool := AgentHooks.is_rust_file p

/-- Options for the `deny_rust_allow` hook. -/
structure DenyRustAllowOptions where
  expect : Bool
  additional_context : Option String
deriving DecidableEq

/-- Denial message of the lenient (`--expect`) mode. -/
def allowExpectSuggestMessage : String :=
  "Adding #[allow(...)] or #![allow(...)] attributes is not permitted. Use #[expect(...)] instead, which will warn when the lint is no longer triggered."

/-- Strict-mode denial message when both markers are present. -/
def strictBothMessage : String :=
  "Adding #[allow(...)] or #[expect(...)] attributes is not permitted. Fix the underlying issue instead of suppressing the warning."

/-- Strict-mode denial message for an allow-only finding. -/
def strictAllowMessage : String :=
  "Adding #[allow(...)] or #![allow(...)] attributes is not permitted. Fix the underlying issue instead of suppressing the warning."

/-- Strict-mode denial message for an expect-only finding. -/
def strictExpectMessage : String :=
  "Adding #[expect(...)] or #![expect(...)] attributes is not permitted. Fix the underlying issue instead of suppressing the warning."

/-- Append the optional additional-context text (space separated). -/
def withCtx (base : String) : Option String → String
  | some ctx => base ++ " " ++ ctx
  | none => base

/-- The PreToolUse denial output. -/
def preToolDenyOutput (reason : String) : HookOutput :=
  ⟨⟨HookEventName.PreToolUse, none, some PermissionDecision.Deny, some reason⟩⟩

/-- Embedding of `deny_rust_allow`. -/
def deny_rust_allow (toolName : String) (toolInput : ToolInput)
    (options : DenyRustAllowOptions) : Option HookOutput :=
  if toolName != "Edit" && toolName != "Write" then none
  else if !isRustPath (toolInput.file_path.getD "") then none
  else
    let content := (toolInput.new_string.or toolInput.content).getD ""
    if content == "" then none
    else
      let hasAllow := findRealB AgentHooks.allowWord content.data
      let hasExpect := findRealB AgentHooks.expectWord content.data
      if options.expect then
        if hasAllow then
          some (preToolDenyOutput (withCtx allowExpectSuggestMessage options.additional_context))
        else none
      else
        if hasAllow || hasExpect then
          some (preToolDenyOutput (withCtx
            (if hasAllow && hasExpect then strictBothMessage
             else if hasAllow then strictAllowMessage
             else strictExpectMessage) options.additional_context))
        else none

/-- Embedding of this front end's `permission_request_action` (no flags:
both checks always run, `block_rm` first). -/
def permission_request_action (input : Option HookInput) : Option HookOutput :=
  match input with
  | none => none
  | some data =>
    let toolName := data.tool_name.getD ""
    if toolName != "Bash" then none
    else
      let cmd := (data.tool_input.bind (fun ti => ti.command)).getD ""
      if cmd == "" then none
      else (block_rm cmd).or (confirm_destructive_find cmd)

/-- Embedding of `deny_rust_allow_action`. -/
def deny_rust_allow_action (expect : Bool) (additionalContext : Option String)
    (input : Option HookInput) : Option HookOutput :=
  match input with
  | none => none
  | some data =>
    let toolName := data.tool_name.getD ""
    if toolName != "Edit" && toolName != "Write" then none
    else
      match data.tool_input with
      | none => none
      | some toolInput => deny_rust_allow toolName toolInput ⟨expect, additionalContext⟩

end ClaudeHooks

namespace ClaimModel

open Rx

/-! Definitions that follow the wording of the specification claims (not the
source), used to compare the claims with the embedded code. -/

/-- Modelled from the spec: the find gate as claim C3 words it, a `find`
token "anchored at start or after a separator `;`, `&`, `|`, `(`" — the
claim's separator list, which does not include the closing parenthesis. -/
def claimSepChar (c : Char) : Bool :=
  c == ';' || c == '&' || c == '|' || c == '('

/-- Modelled from the spec: search for the separator-anchored alternative of
the claim's find gate. -/
def claimFindGateSearch : List Char → Bool
  | [] => false
  | c :: l => (claimSepChar c && spaces0 AgentHooks.findGateBody l) || claimFindGateSearch l

/-- Modelled from the spec: claim C3's find gate, `find\s` at the start or
after one of `;`, `&`, `|`, `(`. -/
def claimFindGateB (l : List Char) : Bool :=
  AgentHooks.findGateBody l || claimFindGateSearch l

/-- Count of leading `#` characters. -/
def hashRun : List Char → Nat
  | '#' :: l => hashRun l + 1
  | _ => 0

/-- Absolute index of the quote closing a raw string opened with `n` hashes:
the first `"` followed by at least `n` hashes. `l` is the remaining input,
`i` its absolute index. -/
def rawCloseIdx (n : Nat) : List Char → Nat → Option Nat
  | [], _ => none
  | '"' :: l, i => if n ≤ hashRun l then some i else rawCloseIdx n l (i + 1)
  | _ :: l, i => rawCloseIdx n l (i + 1)

/-- Absolute index of the quote closing an ordinary string literal,
honouring backslash escapes. -/
def ordCloseIdx : List Char → Nat → Option Nat
  | [], _ => none
  | '\\' :: _ :: l, i => ordCloseIdx l (i + 2)
  | '\\' :: [], _ => none
  | '"' :: _, i => some i
  | c :: l, i => if c == '"' then some i else ordCloseIdx l (i + 1)

/-- Modelled from the spec: ground-truth scan deciding whether position
`pos` lies strictly inside the body of a Rust string literal or raw string
literal (raw strings close only at a quote followed by a matching hash run;
ordinary strings honour backslash escapes). Comment forms are not handled,
so the scan is meaningful only for buffers without comment markers; it is
used on one such buffer in the counterexample to claim C1. -/
def insideStringLitAux (content : List Char) : Nat → Nat → Nat → Bool
  | 0, _, _ => false
  | fuel + 1, i, pos =>
    match content.drop i with
    | [] => false
    | 'r' :: t =>
      if (t.drop (hashRun t)).head? == some '"' then
        let n := hashRun t
        match rawCloseIdx n (content.drop (i + n + 2)) (i + n + 2) with
        | some c =>
          if i + n + 1 < pos && pos < c then true
          else insideStringLitAux content fuel (c + n + 1) pos
        | none => decide (i + n + 1 < pos)
      else insideStringLitAux content fuel (i + 1) pos
    | '"' :: _ =>
      (match ordCloseIdx (content.drop (i + 1)) (i + 1) with
       | some c =>
         if i < pos && pos < c then true
         else insideStringLitAux content fuel (c + 1) pos
       | none => decide (i < pos))
    | _ :: _ => insideStringLitAux content fuel (i + 1) pos

/-- Modelled from the spec: `pos` lies strictly inside a string or
raw-string literal of the (comment-free) buffer. -/
def insideStringLit (content : List Char) (pos : Nat) : Bool :=
  insideStringLitAux content (content.length + 1) 0 pos

end ClaimModel

/-! Combinator lemmas: a matcher built from the `Rx` combinators can only
succeed on an input that satisfies any suffix-closed predicate satisfied by
the successful continuation's input. -/

theorem Rx.lit_imp {P k : List Char → Bool}
    (hP : ∀ c t, P t = true → P (c :: t) = true)
    (hk : ∀ l, k l = true → P l = true) :
    ∀ w l, Rx.lit w k l = true → P l = true := by
  intro w
  induction w with
  | nil => intro l h; exact hk l h
  | cons a ws ih =>
    intro l h
    cases l with
    | nil => simp [Rx.lit] at h
    | cons c t =>
      simp only [Rx.lit, Bool.and_eq_true, beq_iff_eq] at h
      exact hP c t (ih t h.2)

theorem Rx.litCI_imp {P k : List Char → Bool}
    (hP : ∀ c t, P t = true → P (c :: t) = true)
    (hk : ∀ l, k l = true → P l = true) :
    ∀ w l, Rx.litCI w k l = true → P l = true := by
  intro w
  induction w with
  | nil => intro l h; exact hk l h
  | cons a ws ih =>
    intro l h
    cases l with
    | nil => simp [Rx.litCI] at h
    | cons c t =>
      simp only [Rx.litCI, Bool.and_eq_true, beq_iff_eq] at h
      exact hP c t (ih t h.2)

theorem Rx.spaces0_imp {P k : List Char → Bool}
    (hP : ∀ c t, P t = true → P (c :: t) = true)
    (hk : ∀ l, k l = true → P l = true) :
    ∀ l, Rx.spaces0 k l = true → P l = true := by
  intro l
  induction l with
  | nil => intro h; exact hk [] h
  | cons c t ih =>
    intro h
    simp only [Rx.spaces0, Bool.or_eq_true, Bool.and_eq_true] at h
    rcases h with h | ⟨_, h2⟩
    · exact hk _ h
    · exact hP c t (ih h2)

theorem Rx.spaces1_imp {P k : List Char → Bool}
    (hP : ∀ c t, P t = true → P (c :: t) = true)
    (hk : ∀ l, k l = true → P l = true) :
    ∀ l, Rx.spaces1 k l = true → P l = true := by
  intro l
  cases l with
  | nil => intro h; simp [Rx.spaces1] at h
  | cons c t =>
    intro h
    simp only [Rx.spaces1, Bool.and_eq_true] at h
    exact hP c t (Rx.spaces0_imp hP hk t h.2)

theorem Rx.oneSpace_imp {P k : List Char → Bool}
    (hP : ∀ c t, P t = true → P (c :: t) = true)
    (hk : ∀ l, k l = true → P l = true) :
    ∀ l, Rx.oneSpace k l = true → P l = true := by
  intro l
  cases l with
  | nil => intro h; simp [Rx.oneSpace] at h
  | cons c t =>
    intro h
    simp only [Rx.oneSpace, Bool.and_eq_true] at h
    exact hP c t (hk t h.2)

theorem Rx.dotStar_imp {P k : List Char → Bool}
    (hP : ∀ c t, P t = true → P (c :: t) = true)
    (hk : ∀ l, k l = true → P l = true) :
    ∀ l, Rx.dotStar k l = true → P l = true := by
  intro l
  induction l with
  | nil => intro h; exact hk [] h
  | cons c t ih =>
    intro h
    simp only [Rx.dotStar, Bool.or_eq_true, Bool.and_eq_true] at h
    rcases h with h | ⟨_, h2⟩
    · exact hk _ h
    · exact hP c t (ih h2)

/-! Lemmas for claim C2: any match of the Unix `RM_PATTERN` contains `rm`
as a delimited token, and any match of the Windows pattern contains one of
the five verbs as a (case-insensitively) delimited token. -/

theorem AgentHooks.hasDelimRm_cons {c : Char} {t : List Char}
    (h : AgentHooks.hasDelimRm t = true) : AgentHooks.hasDelimRm (c :: t) = true := by
  simp only [AgentHooks.hasDelimRm, Bool.or_eq_true]
  exact Or.inr h

theorem AgentHooks.rmTail_imp :
    ∀ l, AgentHooks.rmTail l = true → AgentHooks.hasDelimRm l = true := by
  intro l h
  cases l with
  | nil => simp [AgentHooks.rmTail, AgentHooks.rmWord, Rx.lit] at h
  | cons c t =>
    simp only [AgentHooks.hasDelimRm, Bool.or_eq_true]
    exact Or.inl h

theorem AgentHooks.slashRmTail_imp :
    ∀ l, AgentHooks.slashRmTail l = true → AgentHooks.hasDelimRm l = true := by
  intro l
  induction l with
  | nil => intro h; simp [AgentHooks.slashRmTail] at h
  | cons c t ih =>
    intro h
    simp only [AgentHooks.slashRmTail, Bool.and_eq_true, Bool.or_eq_true] at h
    rcases h.2 with ⟨_, h2⟩ | h2
    · exact AgentHooks.hasDelimRm_cons (AgentHooks.rmTail_imp t h2)
    · exact AgentHooks.hasDelimRm_cons (ih h2)

theorem AgentHooks.pathRm_imp :
    ∀ l, AgentHooks.pathRm l = true → AgentHooks.hasDelimRm l = true := by
  intro l h
  simp only [AgentHooks.pathRm, Bool.or_eq_true] at h
  rcases h with h | h
  · exact AgentHooks.rmTail_imp l h
  · exact AgentHooks.slashRmTail_imp l h

theorem AgentHooks.bsRm_imp :
    ∀ l, AgentHooks.bsRm l = true → AgentHooks.hasDelimRm l = true := by
  intro l h
  cases l with
  | nil =>
    simp only [AgentHooks.bsRm] at h
    exact AgentHooks.pathRm_imp [] h
  | cons c t =>
    simp only [AgentHooks.bsRm, Bool.or_eq_true, Bool.and_eq_true] at h
    rcases h with h | ⟨_, h2⟩
    · exact AgentHooks.pathRm_imp _ h
    · exact AgentHooks.hasDelimRm_cons (AgentHooks.pathRm_imp t h2)

theorem AgentHooks.cmdRm_imp :
    ∀ l, AgentHooks.cmdRm l = true → AgentHooks.hasDelimRm l = true := by
  intro l h
  simp only [AgentHooks.cmdRm, Bool.or_eq_true] at h
  rcases h with h | h
  · exact AgentHooks.bsRm_imp l h
  · exact Rx.lit_imp (fun c t => AgentHooks.hasDelimRm_cons)
      (Rx.spaces1_imp (fun c t => AgentHooks.hasDelimRm_cons) AgentHooks.bsRm_imp)
      AgentHooks.commandWord l h

theorem AgentHooks.sudoRm_imp :
    ∀ l, AgentHooks.sudoRm l = true → AgentHooks.hasDelimRm l = true := by
  intro l h
  simp only [AgentHooks.sudoRm, Bool.or_eq_true] at h
  rcases h with h | h
  · exact AgentHooks.cmdRm_imp l h
  · exact Rx.lit_imp (fun c t => AgentHooks.hasDelimRm_cons)
      (Rx.spaces1_imp (fun c t => AgentHooks.hasDelimRm_cons) AgentHooks.cmdRm_imp)
      AgentHooks.sudoWord l h

theorem AgentHooks.rmSepSearch_imp :
    ∀ l, AgentHooks.rmSepSearch l = true → AgentHooks.hasDelimRm l = true := by
  intro l
  induction l with
  | nil => intro h; simp [AgentHooks.rmSepSearch] at h
  | cons c t ih =>
    intro h
    simp only [AgentHooks.rmSepSearch, Bool.or_eq_true, Bool.and_eq_true] at h
    rcases h with ⟨_, h2⟩ | h2
    · exact AgentHooks.hasDelimRm_cons
        (Rx.spaces0_imp (fun c t => AgentHooks.hasDelimRm_cons) AgentHooks.sudoRm_imp t h2)
    · exact AgentHooks.hasDelimRm_cons (ih h2)

theorem AgentHooks.is_rm_command_imp (cmd : String)
    (h : AgentHooks.is_rm_command cmd = true) : AgentHooks.hasDelimRm cmd.data = true := by
  simp only [AgentHooks.is_rm_command, Bool.or_eq_true] at h
  rcases h with h | h
  · exact AgentHooks.sudoRm_imp _ h
  · exact AgentHooks.rmSepSearch_imp _ h

theorem AgentHooks.hasDelimVerbW_cons {c : Char} {t : List Char}
    (h : AgentHooks.hasDelimVerbW t = true) : AgentHooks.hasDelimVerbW (c :: t) = true := by
  simp only [AgentHooks.hasDelimVerbW, Bool.or_eq_true]
  exact Or.inr h

theorem AgentHooks.verbTailW_imp :
    ∀ l, AgentHooks.verbTailW l = true → AgentHooks.hasDelimVerbW l = true := by
  intro l h
  cases l with
  | nil =>
    simp [AgentHooks.verbTailW, AgentHooks.rmWord, AgentHooks.delWord, AgentHooks.rdWord,
      AgentHooks.rmdirWord, AgentHooks.removeItemWord, Rx.litCI] at h
  | cons c t =>
    simp only [AgentHooks.hasDelimVerbW, Bool.or_eq_true]
    exact Or.inl h

theorem AgentHooks.slashVerbTailW_imp :
    ∀ l, AgentHooks.slashVerbTailW l = true → AgentHooks.hasDelimVerbW l = true := by
  intro l
  induction l with
  | nil => intro h; simp [AgentHooks.slashVerbTailW] at h
  | cons c t ih =>
    intro h
    simp only [AgentHooks.slashVerbTailW, Bool.and_eq_true, Bool.or_eq_true] at h
    rcases h.2 with ⟨_, h2⟩ | h2
    · exact AgentHooks.hasDelimVerbW_cons (AgentHooks.verbTailW_imp t h2)
    · exact AgentHooks.hasDelimVerbW_cons (ih h2)

theorem AgentHooks.pathVerbW_imp :
    ∀ l, AgentHooks.pathVerbW l = true → AgentHooks.hasDelimVerbW l = true := by
  intro l h
  simp only [AgentHooks.pathVerbW, Bool.or_eq_true] at h
  rcases h with h | h
  · exact AgentHooks.verbTailW_imp l h
  · exact AgentHooks.slashVerbTailW_imp l h

theorem AgentHooks.bsVerbW_imp :
    ∀ l, AgentHooks.bsVerbW l = true → AgentHooks.hasDelimVerbW l = true := by
  intro l h
  cases l with
  | nil =>
    simp only [AgentHooks.bsVerbW] at h
    exact AgentHooks.pathVerbW_imp [] h
  | cons c t =>
    simp only [AgentHooks.bsVerbW, Bool.or_eq_true, Bool.and_eq_true] at h
    rcases h with h | ⟨_, h2⟩
    · exact AgentHooks.pathVerbW_imp _ h
    · exact AgentHooks.hasDelimVerbW_cons (AgentHooks.pathVerbW_imp t h2)

theorem AgentHooks.cmdVerbW_imp :
    ∀ l, AgentHooks.cmdVerbW l = true → AgentHooks.hasDelimVerbW l = true := by
  intro l h
  simp only [AgentHooks.cmdVerbW, Bool.or_eq_true] at h
  rcases h with h | h
  · exact AgentHooks.bsVerbW_imp l h
  · exact Rx.litCI_imp (fun c t => AgentHooks.hasDelimVerbW_cons)
      (Rx.spaces1_imp (fun c t => AgentHooks.hasDelimVerbW_cons) AgentHooks.bsVerbW_imp)
      AgentHooks.commandWord l h

theorem AgentHooks.sudoVerbW_imp :
    ∀ l, AgentHooks.sudoVerbW l = true → AgentHooks.hasDelimVerbW l = true := by
  intro l h
  simp only [AgentHooks.sudoVerbW, Bool.or_eq_true] at h
  rcases h with h | h
  · exact AgentHooks.cmdVerbW_imp l h
  · exact Rx.litCI_imp (fun c t => AgentHooks.hasDelimVerbW_cons)
      (Rx.spaces1_imp (fun c t => AgentHooks.hasDelimVerbW_cons) AgentHooks.cmdVerbW_imp)
      AgentHooks.sudoWord l h

theorem AgentHooks.verbSepSearchW_imp :
    ∀ l, AgentHooks.verbSepSearchW l = true → AgentHooks.hasDelimVerbW l = true := by
  intro l
  induction l with
  | nil => intro h; simp [AgentHooks.verbSepSearchW] at h
  | cons c t ih =>
    intro h
    simp only [AgentHooks.verbSepSearchW, Bool.or_eq_true, Bool.and_eq_true] at h
    rcases h with ⟨_, h2⟩ | h2
    · exact AgentHooks.hasDelimVerbW_cons
        (Rx.spaces0_imp (fun c t => AgentHooks.hasDelimVerbW_cons) AgentHooks.sudoVerbW_imp t h2)
    · exact AgentHooks.hasDelimVerbW_cons (ih h2)

theorem AgentHooks.is_rm_command_windows_imp (cmd : String)
    (h : AgentHooks.is_rm_command_windows cmd = true) :
    AgentHooks.hasDelimVerbW cmd.data = true := by
  simp only [AgentHooks.is_rm_command_windows, Bool.or_eq_true] at h
  rcases h with h | h
  · exact AgentHooks.sudoVerbW_imp _ h
  · exact AgentHooks.verbSepSearchW_imp _ h

/-- C2: for every string that does not contain the deletion verb as a
delimited token — `rm` followed by whitespace or end of string on Unix;
one of `rm`, `del`, `rd`, `rmdir`, `remove-item` case-insensitively
delimited on Windows — `is_rm_command` returns `false`, so words that
merely contain the verb as a substring never match. -/
theorem c2_rm_requires_delimited_verb :
    (∀ s : String, AgentHooks.hasDelimRm s.data = false →
      AgentHooks.is_rm_command s = false) ∧
    (∀ s : String, AgentHooks.hasDelimVerbW s.data = false →
      AgentHooks.is_rm_command_windows s = false) := by
  constructor
  · intro s h
    cases hm : AgentHooks.is_rm_command s with
    | false => rfl
    | true =>
      rw [AgentHooks.is_rm_command_imp s hm] at h
      exact absurd h (by decide)
  · intro s h
    cases hm : AgentHooks.is_rm_command_windows s with
    | false => rfl
    | true =>
      rw [AgentHooks.is_rm_command_windows_imp s hm] at h
      exact absurd h (by decide)

/-- C2 witness: concrete instances of the theorem. -/
theorem c2_rm_requires_delimited_verb_witness :
    AgentHooks.is_rm_command "trash file.txt" = false ∧
    AgentHooks.is_rm_command_windows "trash file.txt" = false :=
  ⟨c2_rm_requires_delimited_verb.1 "trash file.txt" (by decide),
   c2_rm_requires_delimited_verb.2 "trash file.txt" (by decide)⟩

/-- C9: the seven documented example commands of `is_rm_command`: the three
rm invocations are recognized, the four rm-free or undelimited commands are
not. -/
theorem c9_rm_command_examples :
    AgentHooks.is_rm_command "rm file.txt" = true ∧
    AgentHooks.is_rm_command "sudo rm -rf /" = true ∧
    AgentHooks.is_rm_command "echo test && rm file.txt" = true ∧
    AgentHooks.is_rm_command "ls -la" = false ∧
    AgentHooks.is_rm_command "trash file.txt" = false ∧
    AgentHooks.is_rm_command "grep -r \x27pattern\x27 ." = false ∧
    AgentHooks.is_rm_command "rma -rm" = false := by
  decide

/-! Lemmas for claim C3: behaviour of the first-match loop of
`check_destructive_find`. -/

theorem AgentHooks.firstMatch_pos :
    ∀ (ps : List ((List Char → Bool) × String)) (l : List Char) (i : Nat)
      (h : i < ps.length),
      (ps.get ⟨i, h⟩).1 l = true →
      (∀ j, (hj : j < i) → (ps.get ⟨j, Nat.lt_trans hj h⟩).1 l = false) →
      AgentHooks.firstMatch ps l = some (ps.get ⟨i, h⟩).2 := by
  intro ps
  induction ps with
  | nil =>
    intro l i h
    exact absurd h (by simp)
  | cons p ps ih =>
    intro l i h hp hprev
    obtain ⟨pf, pd⟩ := p
    cases i with
    | zero =>
      have hp0 : pf l = true := hp
      have hres : AgentHooks.firstMatch ((pf, pd) :: ps) l = some pd := by
        simp [AgentHooks.firstMatch, hp0]
      exact hres
    | succ n =>
      have hfail : pf l = false := by simpa using hprev 0 (Nat.succ_pos n)
      have hn : n < ps.length := Nat.lt_of_succ_lt_succ h
      have hp2 : (ps.get ⟨n, hn⟩).1 l = true := by simpa using hp
      have hprev2 : ∀ j, (hj : j < n) →
          (ps.get ⟨j, Nat.lt_trans hj hn⟩).1 l = false := by
        intro j hj
        simpa using hprev (j + 1) (Nat.succ_lt_succ hj)
      have hres := ih l n hn hp2 hprev2
      simp only [AgentHooks.firstMatch, hfail, if_false, Bool.false_eq_true]
      simpa using hres

theorem AgentHooks.firstMatch_neg :
    ∀ (ps : List ((List Char → Bool) × String)) (l : List Char),
      (∀ i (h : i < ps.length), (ps.get ⟨i, h⟩).1 l = false) →
      AgentHooks.firstMatch ps l = none := by
  intro ps
  induction ps with
  | nil => intro l _; rfl
  | cons p ps ih =>
    intro l hall
    obtain ⟨pf, pd⟩ := p
    have h0 : pf l = false := by simpa using hall 0 (by simp)
    simp only [AgentHooks.firstMatch, h0, if_false, Bool.false_eq_true]
    exact ih l (fun i h => by simpa using hall (i + 1) (by simpa using Nat.succ_lt_succ h))

/-- C3 (amended: the code's separator class also contains `)`): when the
find gate `(^|[;&|()]\s*)find\s` does not match (on Windows, when the
command has no pipe character), `check_destructive_find` returns `none`;
when it matches, the result is the description of the first sub-pattern of
`DESTRUCTIVE_PATTERNS` (in the fixed source order: -delete, -exec
rm/rmdir, -execdir rm/rmdir, pipe to xargs rm/rmdir, -exec mv, -ok
rm/rmdir, each case-insensitive) that matches, and `none` when none
matches — only one description is ever reported per call. -/
theorem c3_destructive_find_gate_and_priority :
    (∀ cmd : String, AgentHooks.findGateB cmd.data = false →
      AgentHooks.check_destructive_find cmd = none) ∧
    (∀ (cmd : String) (i : Nat) (h : i < AgentHooks.DESTRUCTIVE_PATTERNS.length),
      AgentHooks.findGateB cmd.data = true →
      (AgentHooks.DESTRUCTIVE_PATTERNS.get ⟨i, h⟩).1 cmd.data = true →
      (∀ j, (hj : j < i) →
        (AgentHooks.DESTRUCTIVE_PATTERNS.get ⟨j, Nat.lt_trans hj h⟩).1 cmd.data = false) →
      AgentHooks.check_destructive_find cmd =
        some (AgentHooks.DESTRUCTIVE_PATTERNS.get ⟨i, h⟩).2) ∧
    (∀ cmd : String, AgentHooks.findGateB cmd.data = true →
      (∀ i (h : i < AgentHooks.DESTRUCTIVE_PATTERNS.length),
        (AgentHooks.DESTRUCTIVE_PATTERNS.get ⟨i, h⟩).1 cmd.data = false) →
      AgentHooks.check_destructive_find cmd = none) ∧
    (∀ cmd : String, AgentHooks.hasPipeB cmd.data = false →
      AgentHooks.check_destructive_find_windows cmd = none) ∧
    (∀ cmd : String, AgentHooks.hasPipeB cmd.data = true →
      Rx.searchB AgentHooks.pipeMoveAt cmd.data = true →
      AgentHooks.check_destructive_find_windows cmd = some "piped to move/move-item") ∧
    (∀ cmd : String, AgentHooks.hasPipeB cmd.data = true →
      Rx.searchB AgentHooks.pipeMoveAt cmd.data = false →
      AgentHooks.check_destructive_find_windows cmd = none) := by
  refine ⟨?_, ?_, ?_, ?_, ?_, ?_⟩
  · intro cmd h
    simp [AgentHooks.check_destructive_find, h]
  · intro cmd i h hgate hp hprev
    simp only [AgentHooks.check_destructive_find, hgate, Bool.not_true, Bool.false_eq_true,
      if_false]
    exact AgentHooks.firstMatch_pos AgentHooks.DESTRUCTIVE_PATTERNS cmd.data i h hp hprev
  · intro cmd hgate hall
    simp only [AgentHooks.check_destructive_find, hgate, Bool.not_true, Bool.false_eq_true,
      if_false]
    exact AgentHooks.firstMatch_neg AgentHooks.DESTRUCTIVE_PATTERNS cmd.data hall
  · intro cmd h
    simp [AgentHooks.check_destructive_find_windows, h]
  · intro cmd hgate hp
    simp [AgentHooks.check_destructive_find_windows, hgate,
      AgentHooks.DESTRUCTIVE_PATTERNS_windows, AgentHooks.firstMatch, hp]
  · intro cmd hgate hp
    simp [AgentHooks.check_destructive_find_windows, hgate,
      AgentHooks.DESTRUCTIVE_PATTERNS_windows, AgentHooks.firstMatch, hp]

/-- C3 counterexample: the claim's separator list for the find gate omits
the closing parenthesis, but the code's class `[;&|()]` contains it. On
`") find . -delete"` the gate as worded by the claim does not match, so the
claim predicts `none`, yet the code returns a description. -/
theorem c3_counterexample :
    ClaimModel.claimFindGateB (") find . -delete".data) = false ∧
    AgentHooks.check_destructive_find ") find . -delete" =
      some "find with -delete option" := by
  constructor
  · decide
  · decide

/-- C3 witness: concrete instances of the amended theorem, including a
priority case where an earlier pattern must be ruled out. -/
theorem c3_destructive_find_gate_and_priority_witness :
    AgentHooks.check_destructive_find "ls -la" = none ∧
    AgentHooks.check_destructive_find "find . -name x -delete" =
      some "find with -delete option" ∧
    AgentHooks.check_destructive_find "find . -exec rm a b ;" =
      some "find with -exec rm/rmdir" ∧
    AgentHooks.check_destructive_find_windows "dir | move-item x" =
      some "piped to move/move-item" ∧
    AgentHooks.check_destructive_find_windows "dir /s" = none := by
  refine ⟨?_, ?_, ?_, ?_, ?_⟩
  · exact c3_destructive_find_gate_and_priority.1 "ls -la" (by decide)
  · have h := c3_destructive_find_gate_and_priority.2.1 "find . -name x -delete" 0
      (by decide) (by decide) (by decide) (fun j hj => absurd hj (Nat.not_lt_zero j))
    exact h.trans (by decide)
  · have h := c3_destructive_find_gate_and_priority.2.1 "find . -exec rm a b ;" 1
      (by decide) (by decide) (by decide)
      (fun j hj => by
        have hj0 : j = 0 := Nat.lt_one_iff.mp hj
        subst hj0
        exact (by decide :
          (AgentHooks.DESTRUCTIVE_PATTERNS.get ⟨0, Nat.succ_pos 5⟩).1
            "find . -exec rm a b ;".data = false))
    exact h.trans (by decide)
  · exact c3_destructive_find_gate_and_priority.2.2.2.2.1 "dir | move-item x"
      (by decide) (by decide)
  · exact c3_destructive_find_gate_and_priority.2.2.2.1 "dir /s" (by decide)

/-! Lemmas for claim C1: `find_real_matches` succeeds exactly when the
attribute pattern matches at some position that the scanner does not
exclude. -/

theorem AgentHooks.matchAttrAt_nil (word : List Char) :
    AgentHooks.matchAttrAt word [] = false := rfl

theorem AgentHooks.findRealAux_iff (word content : List Char) :
    ∀ l i, AgentHooks.findRealAux word content l i = true ↔
      ∃ k, AgentHooks.matchAttrAt word (l.drop k) = true ∧
        AgentHooks.inCommentOrStringL content (i + k) = false := by
  intro l
  induction l with
  | nil =>
    intro i
    simp [AgentHooks.findRealAux, AgentHooks.matchAttrAt_nil]
  | cons c t ih =>
    intro i
    simp only [AgentHooks.findRealAux, Bool.or_eq_true, Bool.and_eq_true,
      Bool.not_eq_true']
    constructor
    · intro h
      rcases h with ⟨h1, h2⟩ | h
      · exact ⟨0, by simpa using h1, by simpa using h2⟩
      · obtain ⟨k, hk1, hk2⟩ := (ih (i + 1)).mp h
        refine ⟨k + 1, by simpa using hk1, ?_⟩
        have : i + (k + 1) = i + 1 + k := by omega
        rw [this]
        exact hk2
    · rintro ⟨k, hk1, hk2⟩
      cases k with
      | zero =>
        left
        exact ⟨by simpa using hk1, by simpa using hk2⟩
      | succ n =>
        right
        refine (ih (i + 1)).mpr ⟨n, by simpa using hk1, ?_⟩
        have : i + 1 + n = i + (n + 1) := by omega
        rw [this]
        exact hk2

theorem AgentHooks.findRealB_iff (word content : List Char) :
    AgentHooks.findRealB word content = true ↔
      ∃ k, AgentHooks.matchAttrAt word (content.drop k) = true ∧
        AgentHooks.inCommentOrStringL content k = false := by
  have h := AgentHooks.findRealAux_iff word content content 0
  simpa using h

theorem AgentHooks.findRealB_false_of_excluded {word content : List Char}
    (h : ∀ k, AgentHooks.matchAttrAt word (content.drop k) = true →
      AgentHooks.inCommentOrStringL content k = true) :
    AgentHooks.findRealB word content = false := by
  cases hb : AgentHooks.findRealB word content with
  | false => rfl
  | true =>
    obtain ⟨k, hk1, hk2⟩ := (AgentHooks.findRealB_iff word content).mp hb
    rw [h k hk1] at hk2
    exact absurd hk2 (by decide)

/-- C1 (amended: "inside a comment or string" means "at a position the
scanner `is_in_comment_or_string` excludes"; the scanner's simplified
raw-string rule can fail to exclude positions genuinely inside raw strings):
a marker match at an excluded position never contributes to the finding of
`check_rust_allow_attributes` — if every `allow` and every `expect` match
is excluded the finding is `Ok`; the empty buffer gives `Ok`; the two
documented example buffers (marker in a line comment, marker in a string
literal) give `Ok`; and a buffer with a non-excluded `#[allow(` match and a
non-excluded `#[expect(` match gives `HasBoth`. -/
theorem c1_excluded_matches_never_contribute :
    (∀ content : String,
      (∀ k, AgentHooks.matchAttrAt AgentHooks.allowWord (content.data.drop k) = true →
        AgentHooks.inCommentOrStringL content.data k = true) →
      (∀ k, AgentHooks.matchAttrAt AgentHooks.expectWord (content.data.drop k) = true →
        AgentHooks.inCommentOrStringL content.data k = true) →
      AgentHooks.check_rust_allow_attributes content = AgentHooks.RustAllowCheckResult.Ok) ∧
    AgentHooks.check_rust_allow_attributes "" = AgentHooks.RustAllowCheckResult.Ok ∧
    AgentHooks.check_rust_allow_attributes "// #[allow(dead_code)]\nfn foo() \x7b\x7d" =
      AgentHooks.RustAllowCheckResult.Ok ∧
    AgentHooks.check_rust_allow_attributes "let s = \"#[allow(dead_code)]\";" =
      AgentHooks.RustAllowCheckResult.Ok ∧
    (∀ content : String,
      (∃ k, AgentHooks.matchAttrAt AgentHooks.allowWord (content.data.drop k) = true ∧
        AgentHooks.inCommentOrStringL content.data k = false) →
      (∃ k, AgentHooks.matchAttrAt AgentHooks.expectWord (content.data.drop k) = true ∧
        AgentHooks.inCommentOrStringL content.data k = false) →
      AgentHooks.check_rust_allow_attributes content =
        AgentHooks.RustAllowCheckResult.HasBoth) := by
  refine ⟨?_, by decide, by decide, by decide, ?_⟩
  · intro content hallow hexpect
    have h1 : AgentHooks.findRealB AgentHooks.allowWord content.data = false :=
      AgentHooks.findRealB_false_of_excluded hallow
    have h2 : AgentHooks.findRealB AgentHooks.expectWord content.data = false :=
      AgentHooks.findRealB_false_of_excluded hexpect
    simp [AgentHooks.check_rust_allow_attributes, h1, h2]
  · intro content hallow hexpect
    have h1 : AgentHooks.findRealB AgentHooks.allowWord content.data = true :=
      (AgentHooks.findRealB_iff _ _).mpr hallow
    have h2 : AgentHooks.findRealB AgentHooks.expectWord content.data = true :=
      (AgentHooks.findRealB_iff _ _).mpr hexpect
    simp [AgentHooks.check_rust_allow_attributes, h1, h2]

/-- C1 counterexample: the claim as stated — a match entirely inside a
string literal never contributes — fails on the code. In the buffer
`let s = r#"a " b #[allow(x)] "#;` the `#[allow(` match at position 17 lies
entirely (positions 17–24) inside the body of the raw string literal
`r#"a " b #[allow(x)] "#` (ground truth per `ClaimModel.insideStringLit`),
yet the scanner's simplified raw-string rule treats the quote at position
13 as closing the raw string, so the match is not excluded and the finding
is `HasAllow`, not `Ok`. -/
theorem c1_counterexample :
    AgentHooks.matchAttrAt AgentHooks.allowWord
      (("let s = r#\"a \" b #[allow(x)] \"#;".data).drop 17) = true ∧
    (List.range 8).all
      (fun d => ClaimModel.insideStringLit
        ("let s = r#\"a \" b #[allow(x)] \"#;".data) (17 + d)) = true ∧
    AgentHooks.check_rust_allow_attributes "let s = r#\"a \" b #[allow(x)] \"#;" =
      AgentHooks.RustAllowCheckResult.HasAllow := by
  refine ⟨by decide, by decide, by decide⟩

/-- C1 witness: concrete instances of the theorem — the all-excluded part
applied to the empty buffer, and the `HasBoth` part applied to a buffer
with one real marker of each kind. -/
theorem c1_excluded_matches_never_contribute_witness :
    AgentHooks.check_rust_allow_attributes "" = AgentHooks.RustAllowCheckResult.Ok ∧
    AgentHooks.check_rust_allow_attributes "#[allow(dead_code)]\n#[expect(unused)]" =
      AgentHooks.RustAllowCheckResult.HasBoth := by
  constructor
  · exact c1_excluded_matches_never_contribute.1 ""
      (fun k h => by
        rw [show ("" : String).data.drop k = [] from by simp] at h
        exact absurd h (by simp [AgentHooks.matchAttrAt_nil]))
      (fun k h => by
        rw [show ("" : String).data.drop k = [] from by simp] at h
        exact absurd h (by simp [AgentHooks.matchAttrAt_nil]))
  · exact c1_excluded_matches_never_contribute.2.2.2.2
      "#[allow(dead_code)]\n#[expect(unused)]"
      ⟨0, by decide, by decide⟩ ⟨20, by decide, by decide⟩

/-- C4 counterexample: the claim as stated — the scanner is total on the
empty buffer and returns `false` there for any offset — fails on the code:
for the empty buffer and offset 1 the slice `&content[..match_start]`
panics (index out of bounds), so the function yields no boolean at all, in
particular not `false`. -/
theorem c4_counterexample :
    AgentHooks.is_in_comment_or_string_checked "" 1 = none ∧
    AgentHooks.is_in_comment_or_string_checked "" 1 ≠ some false := by
  constructor
  · decide
  · decide

/-- C4 (amended: restricted to in-bounds offsets, the only ones on which
the slice `&content[..match_start]` does not panic): for every offset not
exceeding the buffer length the scanner is total, i.e. yields a verdict;
on the empty buffer the only in-bounds offset is 0 and the verdict there is
`false`; and at offset 0 of any buffer the verdict is `false` (no prefix to
scan). -/
theorem c4_scanner_edge_cases_inbounds :
    (∀ (content : String) (offset : Nat), offset ≤ content.length →
      ∃ b, AgentHooks.is_in_comment_or_string_checked content offset = some b) ∧
    AgentHooks.is_in_comment_or_string_checked "" 0 = some false ∧
    (∀ content : String,
      AgentHooks.is_in_comment_or_string_checked content 0 = some false) := by
  refine ⟨?_, by decide, ?_⟩
  · intro content offset h
    exact ⟨AgentHooks.inCommentOrStringL content.data offset,
      by simp [AgentHooks.is_in_comment_or_string_checked, h]⟩
  · intro content
    show (if 0 ≤ content.length then
      some (AgentHooks.inCommentOrStringL content.data 0) else none) = some false
    rw [if_pos (Nat.zero_le _)]
    rfl

/-- C4 witness: concrete instances — totality at an in-bounds offset of a
non-empty buffer, and the offset-0 verdict on a concrete buffer. -/
theorem c4_scanner_edge_cases_inbounds_witness :
    (∃ b, AgentHooks.is_in_comment_or_string_checked "abc" 2 = some b) ∧
    AgentHooks.is_in_comment_or_string_checked "xy" 0 = some false :=
  ⟨c4_scanner_edge_cases_inbounds.1 "abc" 2 (by decide),
   c4_scanner_edge_cases_inbounds.2.2 "xy"⟩

/-- C5: in the shell-command flow, when both checks are enabled and both
classifiers match the same command, the verdict is the rm denial with the
fixed trash-suggesting message, not the find Ask — the deletion check takes
priority. Stated for both front ends (`agent_hooks/claude`'s
`permission_request_action` with both flags, and `claude_hooks`' flagless
`permission_request_action`, where `block_rm` runs first via `or_else`). -/
theorem c5_delete_check_takes_priority :
    (∀ cmd : String,
      AgentHooks.is_rm_command cmd = true →
      AgentHooks.check_destructive_find cmd ≠ none →
      AgentClaude.permission_request_action true true
        (some ⟨some AgentClaude.ToolName.Bash, some ⟨some cmd, none, none, none⟩⟩) =
        some AgentClaude.rmDenyOutput) ∧
    (∀ cmd : String,
      ClaudeHooks.rmIsMatch cmd = true →
      ClaudeHooks.confirm_destructive_find cmd ≠ none →
      ClaudeHooks.permission_request_action
        (some ⟨some "Bash", some ⟨some cmd, none, none, none⟩⟩) =
        some ⟨⟨ClaudeHooks.HookEventName.PermissionRequest,
          some ⟨ClaudeHooks.DecisionBehavior.Deny, ClaudeHooks.rmForbiddenMessage⟩,
          none, none⟩⟩) := by
  constructor
  · intro cmd h1 h2
    have hne : (cmd == "") = false := by
      cases hc : cmd == "" with
      | false => rfl
      | true =>
        have hc2 : cmd = "" := by simpa using hc
        rw [hc2] at h1
        exact absurd h1 (by decide)
    simp [AgentClaude.permission_request_action, hne, h1]
  · intro cmd h1 h2
    have hne : (cmd == "") = false := by
      cases hc : cmd == "" with
      | false => rfl
      | true =>
        have hc2 : cmd = "" := by simpa using hc
        rw [hc2] at h1
        exact absurd h1 (by decide)
    simp [ClaudeHooks.permission_request_action, hne, ClaudeHooks.block_rm, h1, Option.or]

/-- C5 witness: a command matched by both classifiers, yielding the rm
denial in both front ends. -/
theorem c5_delete_check_takes_priority_witness :
    AgentClaude.permission_request_action true true
      (some ⟨some AgentClaude.ToolName.Bash,
        some ⟨some "find . -delete; rm x", none, none, none⟩⟩) =
      some AgentClaude.rmDenyOutput ∧
    ClaudeHooks.permission_request_action
      (some ⟨some "Bash", some ⟨some "find . -delete; rm x", none, none, none⟩⟩) =
      some ⟨⟨ClaudeHooks.HookEventName.PermissionRequest,
        some ⟨ClaudeHooks.DecisionBehavior.Deny, ClaudeHooks.rmForbiddenMessage⟩,
        none, none⟩⟩ :=
  ⟨c5_delete_check_takes_priority.1 "find . -delete; rm x" (by decide) (by decide),
   c5_delete_check_takes_priority.2 "find . -delete; rm x" (by decide) (by decide)⟩

/-- C6: in lenient (`--expect`) mode of the attribute-suppression flow, for
every Rust-file Edit/Write event with non-empty content, a `HasAllow` or
`HasBoth` finding produces the denial whose message suggests
`#[expect(...)]` as the alternative, while an `Ok` or `HasExpect`-only
finding produces no opinion; in particular content `#[expect(dead_code)]`
in lenient mode yields no opinion. Stated for both front ends. -/
theorem c6_lenient_mode :
    (∀ (ctx : Option String) (tn : AgentClaude.ToolName) (ti : AgentClaude.ToolInput),
      AgentClaude.isEditOrWrite tn = true →
      AgentHooks.is_rust_file (ti.file_path.getD "") = true →
      ((ti.new_string.or ti.content).getD "" == "") = false →
      ((AgentHooks.check_rust_allow_attributes ((ti.new_string.or ti.content).getD "") =
          AgentHooks.RustAllowCheckResult.HasAllow ∨
        AgentHooks.check_rust_allow_attributes ((ti.new_string.or ti.content).getD "") =
          AgentHooks.RustAllowCheckResult.HasBoth) →
        AgentClaude.pre_tool_use_action true true ctx (some ⟨some tn, some ti⟩) =
          some (AgentClaude.preToolDenyOutput
            (AgentClaude.withCtx AgentClaude.allowExpectSuggestMessage ctx))) ∧
      ((AgentHooks.check_rust_allow_attributes ((ti.new_string.or ti.content).getD "") =
          AgentHooks.RustAllowCheckResult.Ok ∨
        AgentHooks.check_rust_allow_attributes ((ti.new_string.or ti.content).getD "") =
          AgentHooks.RustAllowCheckResult.HasExpect) →
        AgentClaude.pre_tool_use_action true true ctx (some ⟨some tn, some ti⟩) = none)) ∧
    AgentClaude.pre_tool_use_action true true none
      (some ⟨some AgentClaude.ToolName.Edit,
        some ⟨none, some "#[expect(dead_code)]", none, some "src/main.rs"⟩⟩) = none ∧
    (∀ (ctx : Option String) (tname : String) (ti : ClaudeHooks.ToolInput),
      (tname = "Edit" ∨ tname = "Write") →
      ClaudeHooks.isRustPath (ti.file_path.getD "") = true →
      ((ti.new_string.or ti.content).getD "" == "") = false →
      (ClaudeHooks.findRealB AgentHooks.allowWord
          ((ti.new_string.or ti.content).getD "").data = true →
        ClaudeHooks.deny_rust_allow tname ti ⟨true, ctx⟩ =
          some (ClaudeHooks.preToolDenyOutput
            (ClaudeHooks.withCtx ClaudeHooks.allowExpectSuggestMessage ctx))) ∧
      (ClaudeHooks.findRealB AgentHooks.allowWord
          ((ti.new_string.or ti.content).getD "").data = false →
        ClaudeHooks.deny_rust_allow tname ti ⟨true, ctx⟩ = none)) := by
  refine ⟨?_, by decide, ?_⟩
  · intro ctx tn ti het hrf hne
    constructor
    · intro hres
      rcases hres with h | h <;>
        simp [AgentClaude.pre_tool_use_action, het, hrf, hne, h]
    · intro hres
      rcases hres with h | h <;>
        simp [AgentClaude.pre_tool_use_action, het, hrf, hne, h]
  · intro ctx tname ti htn hrf hne
    have hg : (tname != "Edit" && tname != "Write") = false := by
      rcases htn with h | h <;> simp [h]
    constructor
    · intro hA
      simp [ClaudeHooks.deny_rust_allow, hg, hrf, hne, hA]
    · intro hA
      simp [ClaudeHooks.deny_rust_allow, hg, hrf, hne, hA]

/-- C6 witness: lenient mode denies `#[allow(dead_code)]` with the
expect-suggesting message in both front ends. -/
theorem c6_lenient_mode_witness :
    AgentClaude.pre_tool_use_action true true none
      (some ⟨some AgentClaude.ToolName.Edit,
        some ⟨none, some "#[allow(dead_code)]", none, some "src/main.rs"⟩⟩) =
      some (AgentClaude.preToolDenyOutput
        (AgentClaude.withCtx AgentClaude.allowExpectSuggestMessage none)) ∧
    ClaudeHooks.deny_rust_allow "Edit"
      ⟨none, some "#[allow(dead_code)]", none, some "src/main.rs"⟩ ⟨true, none⟩ =
      some (ClaudeHooks.preToolDenyOutput
        (ClaudeHooks.withCtx ClaudeHooks.allowExpectSuggestMessage none)) :=
  ⟨(c6_lenient_mode.1 none AgentClaude.ToolName.Edit
      ⟨none, some "#[allow(dead_code)]", none, some "src/main.rs"⟩
      (by decide) (by decide) (by decide)).1 (Or.inl (by decide)),
   (c6_lenient_mode.2.2 none "Edit"
      ⟨none, some "#[allow(dead_code)]", none, some "src/main.rs"⟩
      (Or.inl rfl) (by decide) (by decide)).1 (by decide)⟩

/-- C7: undecodable payloads (the `none` input), events with a missing or
empty command string, non-Bash tool names, and missing tool names all
produce no opinion — the policies are total functions and never fail.
Stated for both front ends. -/
theorem c7_malformed_input_no_opinion :
    (∀ blockRm confirmFind : Bool,
      AgentClaude.permission_request_action blockRm confirmFind none = none) ∧
    (∀ (deny expectFlag : Bool) (ctx : Option String),
      AgentClaude.pre_tool_use_action deny expectFlag ctx none = none) ∧
    (∀ (blockRm confirmFind : Bool) (d : AgentClaude.HookInput),
      d.tool_name = some AgentClaude.ToolName.Bash →
      (d.tool_input.bind (fun ti => ti.command)).getD "" = "" →
      AgentClaude.permission_request_action blockRm confirmFind (some d) = none) ∧
    (∀ (blockRm confirmFind : Bool) (d : AgentClaude.HookInput)
      (tn : AgentClaude.ToolName),
      d.tool_name = some tn → tn ≠ AgentClaude.ToolName.Bash →
      AgentClaude.permission_request_action blockRm confirmFind (some d) = none) ∧
    (∀ (blockRm confirmFind : Bool) (d : AgentClaude.HookInput),
      d.tool_name = none →
      AgentClaude.permission_request_action blockRm confirmFind (some d) = none) ∧
    ClaudeHooks.permission_request_action none = none ∧
    (∀ d : ClaudeHooks.HookInput,
      d.tool_name.getD "" ≠ "Bash" →
      ClaudeHooks.permission_request_action (some d) = none) ∧
    (∀ d : ClaudeHooks.HookInput,
      d.tool_name.getD "" = "Bash" →
      (d.tool_input.bind (fun ti => ti.command)).getD "" = "" →
      ClaudeHooks.permission_request_action (some d) = none) := by
  refine ⟨?_, ?_, ?_, ?_, ?_, rfl, ?_, ?_⟩
  · intro blockRm confirmFind
    cases blockRm <;> cases confirmFind <;> rfl
  · intro deny expectFlag ctx
    cases deny <;> rfl
  · intro blockRm confirmFind d h1 h2
    obtain ⟨tname, tinput⟩ := d
    simp only at h1 h2
    subst h1
    cases blockRm <;> cases confirmFind <;>
      simp [AgentClaude.permission_request_action, h2]
  · intro blockRm confirmFind d tn h1 hne
    obtain ⟨tname, tinput⟩ := d
    simp only at h1
    subst h1
    cases tn <;>
      first
      | exact absurd rfl hne
      | (cases blockRm <;> cases confirmFind <;> rfl)
  · intro blockRm confirmFind d h1
    obtain ⟨tname, tinput⟩ := d
    simp only at h1
    subst h1
    cases blockRm <;> cases confirmFind <;> rfl
  · intro d h
    obtain ⟨tname, tinput⟩ := d
    have hb : (tname.getD "" != "Bash") = true := by simpa using h
    simp [ClaudeHooks.permission_request_action, hb]
  · intro d h1 h2
    obtain ⟨tname, tinput⟩ := d
    simp only at h1 h2
    simp [ClaudeHooks.permission_request_action, h1, h2]

/-- C7 witness: concrete instances — a Bash event with no tool input, an
Edit event reaching the shell flow, and a Bash event with an empty command
in the older front end. -/
theorem c7_malformed_input_no_opinion_witness :
    AgentClaude.permission_request_action true true
      (some ⟨some AgentClaude.ToolName.Bash, none⟩) = none ∧
    AgentClaude.permission_request_action true true
      (some ⟨some AgentClaude.ToolName.Edit,
        some ⟨some "rm x", none, none, none⟩⟩) = none ∧
    ClaudeHooks.permission_request_action
      (some ⟨some "Bash", some ⟨some "", none, none, none⟩⟩) = none :=
  ⟨c7_malformed_input_no_opinion.2.2.1 true true
      ⟨some AgentClaude.ToolName.Bash, none⟩ rfl rfl,
   c7_malformed_input_no_opinion.2.2.2.1 true true
      ⟨some AgentClaude.ToolName.Edit, some ⟨some "rm x", none, none, none⟩⟩
      AgentClaude.ToolName.Edit rfl (by decide),
   c7_malformed_input_no_opinion.2.2.2.2.2.2.2
      ⟨some "Bash", some ⟨some "", none, none, none⟩⟩ rfl rfl⟩

/-- C8: for every Edit/Write event whose target path does not pass the
case-insensitive `.rs` extension gate, the attribute-suppression flow
produces no opinion regardless of the content; in particular path
`README.md` with content containing a real `#[allow(...)]` marker yields no
opinion. Stated for both front ends. -/
theorem c8_extension_gate :
    (∀ (expectFlag : Bool) (ctx : Option String) (tn : AgentClaude.ToolName)
      (ti : AgentClaude.ToolInput),
      AgentHooks.is_rust_file (ti.file_path.getD "") = false →
      AgentClaude.pre_tool_use_action true expectFlag ctx (some ⟨some tn, some ti⟩) = none) ∧
    AgentClaude.pre_tool_use_action true false none
      (some ⟨some AgentClaude.ToolName.Edit,
        some ⟨none, some "#[allow(dead_code)]", none, some "README.md"⟩⟩) = none ∧
    (∀ (tname : String) (ti : ClaudeHooks.ToolInput)
      (opts : ClaudeHooks.DenyRustAllowOptions),
      ClaudeHooks.isRustPath (ti.file_path.getD "") = false →
      ClaudeHooks.deny_rust_allow tname ti opts = none) ∧
    ClaudeHooks.deny_rust_allow "Edit"
      ⟨none, some "#[allow(dead_code)]", none, some "README.md"⟩ ⟨false, none⟩ = none := by
  refine ⟨?_, by decide, ?_, by decide⟩
  · intro expectFlag ctx tn ti h
    cases het : AgentClaude.isEditOrWrite tn <;>
      simp [AgentClaude.pre_tool_use_action, het, h]
  · intro tname ti opts h
    cases hg : (tname != "Edit" && tname != "Write") <;>
      simp [ClaudeHooks.deny_rust_allow, hg, h]

/-- C8 witness: concrete instances of the universal parts on a non-Rust
path with real markers in the content. -/
theorem c8_extension_gate_witness :
    AgentClaude.pre_tool_use_action true true (some "note")
      (some ⟨some AgentClaude.ToolName.Write,
        some ⟨none, some "#[allow(unused)]", none, some "notes.txt"⟩⟩) = none ∧
    ClaudeHooks.deny_rust_allow "Write"
      ⟨none, some "#[allow(unused)]", none, some "Makefile"⟩ ⟨true, none⟩ = none :=
  ⟨c8_extension_gate.1 true (some "note") AgentClaude.ToolName.Write
      ⟨none, some "#[allow(unused)]", none, some "notes.txt"⟩ (by decide),
   c8_extension_gate.2.2.1 "Write"
      ⟨none, some "#[allow(unused)]", none, some "Makefile"⟩ ⟨true, none⟩ (by decide)⟩

/-! Lemmas for claim C10: the duplicated matcher and scanner of
`claude_hooks` agree extensionally with the core library's. -/

theorem Rx.lit_congr {k k' : List Char → Bool} (h : ∀ l, k l = k' l) :
    ∀ w l, Rx.lit w k l = Rx.lit w k' l := by
  intro w
  induction w with
  | nil => intro l; exact h l
  | cons a ws ih =>
    intro l
    cases l with
    | nil => rfl
    | cons c t => simp [Rx.lit, ih]

theorem Rx.spaces0_congr {k k' : List Char → Bool} (h : ∀ l, k l = k' l) :
    ∀ l, Rx.spaces0 k l = Rx.spaces0 k' l := by
  intro l
  induction l with
  | nil => exact h []
  | cons c t ih => simp [Rx.spaces0, h, ih]

theorem Rx.spaces1_congr {k k' : List Char → Bool} (h : ∀ l, k l = k' l) :
    ∀ l, Rx.spaces1 k l = Rx.spaces1 k' l := by
  intro l
  cases l with
  | nil => rfl
  | cons c t => simp [Rx.spaces1, Rx.spaces0_congr h]

theorem ClaudeHooks.rmTail_eq : ∀ l, ClaudeHooks.rmTail l = AgentHooks.rmTail l := by
  intro l
  rfl

theorem ClaudeHooks.slashRmTail_eq :
    ∀ l, ClaudeHooks.slashRmTail l = AgentHooks.slashRmTail l := by
  intro l
  induction l with
  | nil => rfl
  | cons c t ih =>
    simp [ClaudeHooks.slashRmTail, AgentHooks.slashRmTail, ih, ClaudeHooks.rmTail_eq]

theorem ClaudeHooks.pathRm_eq : ∀ l, ClaudeHooks.pathRm l = AgentHooks.pathRm l := by
  intro l
  simp [ClaudeHooks.pathRm, AgentHooks.pathRm, ClaudeHooks.rmTail_eq,
    ClaudeHooks.slashRmTail_eq]

theorem ClaudeHooks.bsRm_eq : ∀ l, ClaudeHooks.bsRm l = AgentHooks.bsRm l := by
  intro l
  cases l with
  | nil =>
    simp [ClaudeHooks.bsRm, AgentHooks.bsRm, ClaudeHooks.pathRm_eq]
  | cons c t =>
    simp [ClaudeHooks.bsRm, AgentHooks.bsRm, ClaudeHooks.pathRm_eq]

theorem ClaudeHooks.cmdRm_eq : ∀ l, ClaudeHooks.cmdRm l = AgentHooks.cmdRm l := by
  intro l
  have hlit : Rx.lit ClaudeHooks.commandWord (Rx.spaces1 ClaudeHooks.bsRm) l =
      Rx.lit AgentHooks.commandWord (Rx.spaces1 AgentHooks.bsRm) l :=
    Rx.lit_congr (Rx.spaces1_congr ClaudeHooks.bsRm_eq) ClaudeHooks.commandWord l
  simp [ClaudeHooks.cmdRm, AgentHooks.cmdRm, ClaudeHooks.bsRm_eq, hlit]

theorem ClaudeHooks.sudoRm_eq : ∀ l, ClaudeHooks.sudoRm l = AgentHooks.sudoRm l := by
  intro l
  have hlit : Rx.lit ClaudeHooks.sudoWord (Rx.spaces1 ClaudeHooks.cmdRm) l =
      Rx.lit AgentHooks.sudoWord (Rx.spaces1 AgentHooks.cmdRm) l :=
    Rx.lit_congr (Rx.spaces1_congr ClaudeHooks.cmdRm_eq) ClaudeHooks.sudoWord l
  simp [ClaudeHooks.sudoRm, AgentHooks.sudoRm, ClaudeHooks.cmdRm_eq, hlit]

theorem ClaudeHooks.rmSepSearch_eq :
    ∀ l, ClaudeHooks.rmSepSearch l = AgentHooks.rmSepSearch l := by
  intro l
  induction l with
  | nil => rfl
  | cons c t ih =>
    simp [ClaudeHooks.rmSepSearch, AgentHooks.rmSepSearch, ih,
      Rx.spaces0_congr ClaudeHooks.sudoRm_eq]

theorem ClaudeHooks.rmIsMatch_eq :
    ∀ cmd : String, ClaudeHooks.rmIsMatch cmd = AgentHooks.is_rm_command cmd := by
  intro cmd
  simp [ClaudeHooks.rmIsMatch, AgentHooks.is_rm_command, ClaudeHooks.sudoRm_eq,
    ClaudeHooks.rmSepSearch_eq]

theorem ClaudeHooks.lineTailAux_eq :
    ∀ l acc, ClaudeHooks.lineTailAux acc l = AgentHooks.lineTailAux acc l := by
  intro l
  induction l with
  | nil => intro acc; rfl
  | cons c t ih =>
    intro acc
    simp [ClaudeHooks.lineTailAux, AgentHooks.lineTailAux, ih]

theorem ClaudeHooks.lineTail_eq : ∀ l, ClaudeHooks.lineTail l = AgentHooks.lineTail l := by
  intro l
  exact ClaudeHooks.lineTailAux_eq l []

theorem ClaudeHooks.containsTwo_eq (a b : Char) :
    ∀ l, ClaudeHooks.containsTwo a b l = AgentHooks.containsTwo a b l := by
  intro l
  induction l with
  | nil => rfl
  | cons x t ih =>
    cases t with
    | nil => rfl
    | cons y t2 =>
      simp only [ClaudeHooks.containsTwo, AgentHooks.containsTwo, ih]

theorem ClaudeHooks.countTwo_eq (a b : Char) :
    ∀ l, ClaudeHooks.countTwo a b l = AgentHooks.countTwo a b l := by
  have key : ∀ (n : Nat) (l : List Char), l.length ≤ n →
      ClaudeHooks.countTwo a b l = AgentHooks.countTwo a b l := by
    intro n
    induction n with
    | zero =>
      intro l hl
      have hnil : l = [] := List.eq_nil_of_length_eq_zero (Nat.le_zero.mp hl)
      subst hnil
      rfl
    | succ n ih =>
      intro l hl
      cases l with
      | nil => rfl
      | cons x t =>
        cases t with
        | nil => rfl
        | cons y t2 =>
          simp only [List.length_cons] at hl
          by_cases h : (x == a && y == b) = true
          · simp [ClaudeHooks.countTwo, AgentHooks.countTwo, h,
              ih t2 (by omega)]
          · have h2 : (x == a && y == b) = false := by simpa using h
            simp [ClaudeHooks.countTwo, AgentHooks.countTwo, h2,
              ih (y :: t2) (by simp; omega)]
  intro l
  exact key l.length l (Nat.le_refl _)

theorem ClaudeHooks.stripHashes_eq :
    ∀ l, ClaudeHooks.stripHashes l = AgentHooks.stripHashes l := by
  intro l
  induction l with
  | nil => rfl
  | cons c t ih =>
    by_cases hc : c = '#'
    · subst hc
      simpa [ClaudeHooks.stripHashes, AgentHooks.stripHashes] using ih
    · simp [ClaudeHooks.stripHashes, AgentHooks.stripHashes, hc]

theorem ClaudeHooks.skipStr_eq :
    ∀ l prev, ClaudeHooks.skipStr prev l = AgentHooks.skipStr prev l := by
  intro l
  induction l with
  | nil => intro prev; rfl
  | cons c t ih =>
    intro prev
    by_cases h : (c == '"' && prev != '\\') = true
    · simp [ClaudeHooks.skipStr, AgentHooks.skipStr, h]
    · simp [ClaudeHooks.skipStr, AgentHooks.skipStr, h, ih]

theorem ClaudeHooks.strWalkF_eq :
    ∀ fuel inRaw prev l,
      ClaudeHooks.strWalkF fuel inRaw prev l = AgentHooks.strWalkF fuel inRaw prev l := by
  intro fuel
  induction fuel with
  | zero => intro inRaw prev l; cases l <;> rfl
  | succ n ih =>
    intro inRaw prev l
    cases l with
    | nil => cases inRaw <;> rfl
    | cons c t =>
      cases inRaw with
      | true =>
        by_cases hc : (c == '"') = true
        · simp [ClaudeHooks.strWalkF, AgentHooks.strWalkF, hc, ih]
        · simp [ClaudeHooks.strWalkF, AgentHooks.strWalkF, hc, ih]
      | false =>
        by_cases hr : (c == 'r') = true
        · simp only [ClaudeHooks.strWalkF, AgentHooks.strWalkF, hr, if_true,
            ClaudeHooks.stripHashes_eq]
          cases hs : AgentHooks.stripHashes t with
          | nil => simp [ih]
          | cons c2 t2 =>
            by_cases hc2 : c2 = '"'
            · subst hc2; simp [ih]
            · simp [hc2, ih]
        · by_cases hq : (c == '"' && prev != '\\') = true
          · simp only [ClaudeHooks.strWalkF, AgentHooks.strWalkF, hr, hq, if_true,
              Bool.false_eq_true, if_false, ClaudeHooks.skipStr_eq]
            cases hk : AgentHooks.skipStr '"' t with
            | none => rfl
            | some l2 => simp [ih]
          · simp [ClaudeHooks.strWalkF, AgentHooks.strWalkF, hr, hq, ih]

theorem ClaudeHooks.strWalkB_eq : ∀ l, ClaudeHooks.strWalkB l = AgentHooks.strWalkB l := by
  intro l
  exact ClaudeHooks.strWalkF_eq l.length false '\x00' l

theorem ClaudeHooks.inCommentOrStringL_eq :
    ∀ content i, ClaudeHooks.inCommentOrStringL content i =
      AgentHooks.inCommentOrStringL content i := by
  intro content i
  simp only [ClaudeHooks.inCommentOrStringL, AgentHooks.inCommentOrStringL,
    ClaudeHooks.lineTail_eq, ClaudeHooks.containsTwo_eq, ClaudeHooks.countTwo_eq,
    ClaudeHooks.strWalkB_eq]

/-- C10: the logic duplicated in the older front end is extensionally equal
to the core library: for every buffer and byte offset the two
`is_in_comment_or_string` implementations return the same boolean, and for
every command string `block_rm` returns `some` output exactly when
`is_rm_command` returns `true`. -/
theorem c10_duplicated_logic_extensionally_equal :
    (∀ (content : String) (offset : Nat),
      ClaudeHooks.is_in_comment_or_string content offset =
        AgentHooks.is_in_comment_or_string content offset) ∧
    (∀ cmd : String,
      (ClaudeHooks.block_rm cmd).isSome = AgentHooks.is_rm_command cmd) := by
  constructor
  · intro content offset
    exact ClaudeHooks.inCommentOrStringL_eq content.data offset
  · intro cmd
    rw [ClaudeHooks.block_rm, ClaudeHooks.rmIsMatch_eq]
    cases h : AgentHooks.is_rm_command cmd <;> simp [h]
